import Mathlib

/-!
Shallow embedding of the Kalman filter / smoother / E-step core of the DFM
repository (`src/KalmanFiltering.cpp`, `src/EM_algorithm.cpp`).

Modelling conventions:

* Armadillo `double` matrices become matrices over `ℝ` (exact arithmetic).
* A cell of the data matrix `X` is `Option ℝ`: `none` models a non-finite
  (NaN) entry, `some v` a finite value `v`; `find_finite(X.row(t))` becomes
  `missIdx` (the ordered list of finite positions), matching the `uvec miss`
  of the source.  The model matrices `C, Q, R, A` and the state are real
  matrices, i.e. the model covers transition matrices whose first row is
  entirely finite (`nmiss = find_finite(A.row(0))` equal to all of `0..r-1`,
  so `tC.submat(miss, nmiss)` restricts rows only).  The case of a
  non-finite first row of `A` is treated separately with the
  dimension-checked Armadillo layer (`AMat`) at the end of the definitions.
* `.i()` (matrix inverse, computed - not factorized - by the source) is
  Mathlib's `Matrix.inv` (`det`-adjugate based); on an empty `0 × 0` matrix
  both Armadillo and Mathlib yield the empty matrix, and both define the
  determinant of an empty matrix to be `1`.
* The `for (t ...)` loops of the source, whose bodies write index `t`
  (or `T-j`) from the previously written index, become structural
  recursions (`kfSeq`, `FsAux`, `PsAux`, `PsTmAux`); array slots that the
  source allocates with `fill::zeros` and never writes keep the value `0`
  (guards in `PThist`, `PpThist`, `Jhist`, `PsTmSel`).
* Armadillo checks conformance of cube-slice assignments at runtime:
  `Cube.slice(i) = M` throws `std::logic_error` unless `M` has exactly the
  slice's fixed dimensions.  The fused `KalmanFilterSmoother` assigns the
  restricted `|miss| x |miss|` (resp. `rp x |miss|`) matrices of its lag-one
  tail into `n x n` (resp. `rp x n`) slices, which conforms only when every
  channel is observed at the last time step; `KalmanFilterSmootherChecked`
  models that check, returning `none` for the thrown exception.
-/

open Matrix BigOperators

noncomputable section

namespace DFM

/-- `find_finite(X.row(t))`: ordered list of positions of the finite
(observed) entries of a row `x`, the `uvec miss` of the source. -/
def missIdx {n : ℕ} (x : Fin n → Option ℝ) : List (Fin n) :=
  (List.finRange n).filter fun i => (x i).isSome

/-- `tC.submat(miss, nmiss)` with `nmiss` the full column range: the
observation matrix restricted to the observed rows `ms`. -/
def subC {n r : ℕ} (C : Matrix (Fin n) (Fin r) ℝ) (ms : List (Fin n)) :
    Matrix (Fin ms.length) (Fin r) ℝ :=
  Matrix.of fun i j => C (ms.get i) j

/-- `tR.submat(miss, miss)`: the observation noise covariance restricted to
the observed rows and columns `ms`. -/
def subR {n : ℕ} (R : Matrix (Fin n) (Fin n) ℝ) (ms : List (Fin n)) :
    Matrix (Fin ms.length) (Fin ms.length) ℝ :=
  Matrix.of fun i j => R (ms.get i) (ms.get j)

/-- `X.submat(a, miss).t()`: the observed values of a row, restricted to the
finite positions `ms`. -/
def subX {n : ℕ} (x : Fin n → Option ℝ) (ms : List (Fin n)) :
    Fin ms.length → ℝ :=
  fun i => (x (ms.get i)).getD 0

/-- `S = (C * Pp * C.t() + R).i()`: the inverted innovation covariance of the
restricted channels. -/
def Smat {n r : ℕ} (C : Matrix (Fin n) (Fin r) ℝ) (R : Matrix (Fin n) (Fin n) ℝ)
    (ms : List (Fin n)) (Pp : Matrix (Fin r) (Fin r) ℝ) :
    Matrix (Fin ms.length) (Fin ms.length) ℝ :=
  (subC C ms * Pp * (subC C ms)ᵀ + subR R ms)⁻¹

/-- `xe = X.submat(a, miss).t() - C * fp`: the prediction error. -/
def xeVec {n r : ℕ} (C : Matrix (Fin n) (Fin r) ℝ) (x : Fin n → Option ℝ)
    (ms : List (Fin n)) (fp : Fin r → ℝ) : Fin ms.length → ℝ :=
  subX x ms - (subC C ms).mulVec fp

/-- `K = Pp * C.t() * S`: the Kalman gain. -/
def Kmat {n r : ℕ} (C : Matrix (Fin n) (Fin r) ℝ) (R : Matrix (Fin n) (Fin n) ℝ)
    (ms : List (Fin n)) (Pp : Matrix (Fin r) (Fin r) ℝ) :
    Matrix (Fin r) (Fin ms.length) ℝ :=
  Pp * (subC C ms)ᵀ * Smat C R ms Pp

/-- `ff = fp + K * xe`: the updated (filtered) state estimate. -/
def ffUpd {n r : ℕ} (C : Matrix (Fin n) (Fin r) ℝ) (R : Matrix (Fin n) (Fin n) ℝ)
    (ms : List (Fin n)) (x : Fin n → Option ℝ) (fp : Fin r → ℝ)
    (Pp : Matrix (Fin r) (Fin r) ℝ) : Fin r → ℝ :=
  fp + (Kmat C R ms Pp).mulVec (xeVec C x ms fp)

/-- `Pf = Pp - K * C * Pp`: the updated (filtered) state covariance. -/
def PfUpd {n r : ℕ} (C : Matrix (Fin n) (Fin r) ℝ) (R : Matrix (Fin n) (Fin n) ℝ)
    (ms : List (Fin n)) (Pp : Matrix (Fin r) (Fin r) ℝ) :
    Matrix (Fin r) (Fin r) ℝ :=
  Pp - Kmat C R ms Pp * subC C ms * Pp

/-- The per-step log-likelihood contribution: skipped unless `det(S) > 0`,
otherwise `-0.5 * (n * log(2*pi) - log(det(S)) + xe.t() * S * xe)` with `n`
the full channel count `X.n_cols`. -/
def llInc {n r : ℕ} (C : Matrix (Fin n) (Fin r) ℝ) (R : Matrix (Fin n) (Fin n) ℝ)
    (ms : List (Fin n)) (x : Fin n → Option ℝ) (fp : Fin r → ℝ)
    (Pp : Matrix (Fin r) (Fin r) ℝ) : ℝ :=
  if 0 < (Smat C R ms Pp).det then
    -(1 / 2) * ((n : ℝ) * Real.log (2 * Real.pi) - Real.log (Smat C R ms Pp).det
      + xeVec C x ms fp ⬝ᵥ (Smat C R ms Pp).mulVec (xeVec C x ms fp))
  else 0

/-- Running state of the forward filtering loop: the predicted mean `fp` and
covariance `Pp` entering step `t`, and the log-likelihood accumulated so far. -/
structure KFState (r : ℕ) where
  fp : Fin r → ℝ
  Pp : Matrix (Fin r) (Fin r) ℝ
  loglik : ℝ

/-- One iteration of the filtering loop of `KalmanFilter`: update with the
(restricted) observation row `x`, accumulate the likelihood, and run a
prediction `fp = A * ff`, `Pp = A * Pf * A.t() + Q`. -/
def kfStep {n r : ℕ} (C : Matrix (Fin n) (Fin r) ℝ) (Q : Matrix (Fin r) (Fin r) ℝ)
    (R : Matrix (Fin n) (Fin n) ℝ) (A : Matrix (Fin r) (Fin r) ℝ)
    (x : Fin n → Option ℝ) (s : KFState r) : KFState r :=
  { fp := A.mulVec (ffUpd C R (missIdx x) x s.fp s.Pp)
    Pp := A * PfUpd C R (missIdx x) s.Pp * Aᵀ + Q
    loglik := s.loglik + llInc C R (missIdx x) x s.fp s.Pp }

/-- State of the filtering loop before processing row `t` (so `kfSeq 0` is
the initial belief `(F0, P0)` with log-likelihood `0`). -/
def kfSeq {n r : ℕ} (X : ℕ → Fin n → Option ℝ) (C : Matrix (Fin n) (Fin r) ℝ)
    (Q : Matrix (Fin r) (Fin r) ℝ) (R : Matrix (Fin n) (Fin n) ℝ)
    (A : Matrix (Fin r) (Fin r) ℝ) (F0 : Fin r → ℝ)
    (P0 : Matrix (Fin r) (Fin r) ℝ) : ℕ → KFState r
  | 0 => ⟨F0, P0, 0⟩
  | t + 1 => kfStep C Q R A (X t) (kfSeq X C Q R A F0 P0 t)

/-- Row `t` of the filtered state mean history `FT`. -/
def FThist {n r : ℕ} (X : ℕ → Fin n → Option ℝ) (C : Matrix (Fin n) (Fin r) ℝ)
    (Q : Matrix (Fin r) (Fin r) ℝ) (R : Matrix (Fin n) (Fin n) ℝ)
    (A : Matrix (Fin r) (Fin r) ℝ) (F0 : Fin r → ℝ)
    (P0 : Matrix (Fin r) (Fin r) ℝ) (t : ℕ) : Fin r → ℝ :=
  ffUpd C R (missIdx (X t)) (X t) (kfSeq X C Q R A F0 P0 t).fp
    (kfSeq X C Q R A F0 P0 t).Pp

/-- Slice `t` of the filtered state covariance history `PfT`. -/
def PfThist {n r : ℕ} (X : ℕ → Fin n → Option ℝ) (C : Matrix (Fin n) (Fin r) ℝ)
    (Q : Matrix (Fin r) (Fin r) ℝ) (R : Matrix (Fin n) (Fin n) ℝ)
    (A : Matrix (Fin r) (Fin r) ℝ) (F0 : Fin r → ℝ)
    (P0 : Matrix (Fin r) (Fin r) ℝ) (t : ℕ) : Matrix (Fin r) (Fin r) ℝ :=
  PfUpd C R (missIdx (X t)) (kfSeq X C Q R A F0 P0 t).Pp

/-- Row `t` of the predicted state mean history `PT`: the matrix is allocated
with `T+1` zero rows and the loop writes rows `0 .. T-1` only. -/
def PThist {n r : ℕ} (T : ℕ) (X : ℕ → Fin n → Option ℝ)
    (C : Matrix (Fin n) (Fin r) ℝ) (Q : Matrix (Fin r) (Fin r) ℝ)
    (R : Matrix (Fin n) (Fin n) ℝ) (A : Matrix (Fin r) (Fin r) ℝ)
    (F0 : Fin r → ℝ) (P0 : Matrix (Fin r) (Fin r) ℝ) (t : ℕ) : Fin r → ℝ :=
  if t < T then (kfSeq X C Q R A F0 P0 t).fp else 0

/-- Slice `t` of the predicted state covariance history `PpT`: the cube is
allocated with `T+1` zero slices and the loop writes slices `0 .. T-1` only. -/
def PpThist {n r : ℕ} (T : ℕ) (X : ℕ → Fin n → Option ℝ)
    (C : Matrix (Fin n) (Fin r) ℝ) (Q : Matrix (Fin r) (Fin r) ℝ)
    (R : Matrix (Fin n) (Fin n) ℝ) (A : Matrix (Fin r) (Fin r) ℝ)
    (F0 : Fin r → ℝ) (P0 : Matrix (Fin r) (Fin r) ℝ) (t : ℕ) :
    Matrix (Fin r) (Fin r) ℝ :=
  if t < T then (kfSeq X C Q R A F0 P0 t).Pp else 0

/-- Return value of `KalmanFilter`: filtered mean (`T × r`) and covariance
(`T` slices), predicted mean (`T+1 × r`) and covariance (`T+1` slices), and
the total log-likelihood. -/
structure KFOut (T r : ℕ) where
  F : Fin T → Fin r → ℝ
  Pf : Fin T → Matrix (Fin r) (Fin r) ℝ
  P : Fin (T + 1) → Fin r → ℝ
  Pp : Fin (T + 1) → Matrix (Fin r) (Fin r) ℝ
  loglik : ℝ

/-- `KalmanFilter(X, C, Q, R, A, F0, P0)` of `src/KalmanFiltering.cpp`;
`T = X.n_rows` is passed explicitly. -/
def KalmanFilter {n r : ℕ} (T : ℕ) (X : ℕ → Fin n → Option ℝ)
    (C : Matrix (Fin n) (Fin r) ℝ) (Q : Matrix (Fin r) (Fin r) ℝ)
    (R : Matrix (Fin n) (Fin n) ℝ) (A : Matrix (Fin r) (Fin r) ℝ)
    (F0 : Fin r → ℝ) (P0 : Matrix (Fin r) (Fin r) ℝ) : KFOut T r :=
  { F := fun t => FThist X C Q R A F0 P0 t.val
    Pf := fun t => PfThist X C Q R A F0 P0 t.val
    P := fun t => PThist T X C Q R A F0 P0 t.val
    Pp := fun t => PpThist T X C Q R A F0 P0 t.val
    loglik := (kfSeq X C Q R A F0 P0 T).loglik }

/-- `J.slice(t) = PfT.slice(t) * A.t() * PpT.slice(t+1).i()` for `t < T-1`;
the cube is allocated with `T` zero slices and slice `T-1` is never written. -/
def Jhist {r : ℕ} (T : ℕ) (A : Matrix (Fin r) (Fin r) ℝ)
    (PfT PpT : ℕ → Matrix (Fin r) (Fin r) ℝ) (t : ℕ) :
    Matrix (Fin r) (Fin r) ℝ :=
  if t < T - 1 then PfT t * Aᵀ * (PpT (t + 1))⁻¹ else 0

/-- Backward recursion for the smoothed state mean: `FsAux d` is the value the
smoother writes at time index `T-1-d`, so `FsAux 0 = FT.row(T-1)` and
`FsAux (d+1)` is `FT.row(t) + (J.slice(t) * (Fs.row(t+1) - PT.row(t+1)).t()).t()`
at `t = T-2-d`. -/
def FsAux {r : ℕ} (T : ℕ) (A : Matrix (Fin r) (Fin r) ℝ)
    (FT PT : ℕ → Fin r → ℝ) (PfT PpT : ℕ → Matrix (Fin r) (Fin r) ℝ) :
    ℕ → Fin r → ℝ
  | 0 => FT (T - 1)
  | d + 1 => FT (T - 2 - d) + (Jhist T A PfT PpT (T - 2 - d)).mulVec
      (FsAux T A FT PT PfT PpT d - PT (T - 1 - d))

/-- Backward recursion for the smoothed state covariance: `PsAux d` is the
value written at time index `T-1-d`, so `PsAux 0 = PfT.slice(T-1)` and
`PsAux (d+1)` is
`PfT.slice(t) + J.slice(t) * (Ps.slice(t+1) - PpT.slice(t+1)) * J.slice(t).t()`
at `t = T-2-d`. -/
def PsAux {r : ℕ} (T : ℕ) (A : Matrix (Fin r) (Fin r) ℝ)
    (PfT PpT : ℕ → Matrix (Fin r) (Fin r) ℝ) :
    ℕ → Matrix (Fin r) (Fin r) ℝ
  | 0 => PfT (T - 1)
  | d + 1 => PfT (T - 2 - d) + Jhist T A PfT PpT (T - 2 - d) *
      (PsAux T A PfT PpT d - PpT (T - 1 - d)) * (Jhist T A PfT PpT (T - 2 - d))ᵀ

/-- Backward recursion for the lag-one smoothed cross-covariance, with the
seed `PsTm.slice(T-1)` abstracted (the separate smoother and the fused
variant differ only in the `C`/`R` used by the seed): `PsTmAux seed d` is the
value written at time index `T-1-d`; `PsTmAux seed (d+1)` is
`PfT.slice(t) * J.slice(t-1).t() + J.slice(t) * (PsTm.slice(t+1) - A * PfT.slice(t)) * J.slice(t-1).t()`
at `t = T-2-d`. -/
def PsTmAux {r : ℕ} (T : ℕ) (A : Matrix (Fin r) (Fin r) ℝ)
    (PfT PpT : ℕ → Matrix (Fin r) (Fin r) ℝ)
    (seed : Matrix (Fin r) (Fin r) ℝ) : ℕ → Matrix (Fin r) (Fin r) ℝ
  | 0 => seed
  | d + 1 => PfT (T - 2 - d) * (Jhist T A PfT PpT (T - 3 - d))ᵀ +
      Jhist T A PfT PpT (T - 2 - d) *
        (PsTmAux T A PfT PpT seed d - A * PfT (T - 2 - d)) *
        (Jhist T A PfT PpT (T - 3 - d))ᵀ

/-- `PsTm.slice(T-1) = (eye(rp,rp) - K.slice(T-1) * C) * A * PfT.slice(T-2)`
with `K.slice(i) = PpT.slice(i) * C.t() * L.slice(i)` and
`L.slice(i) = (C * PpT.slice(i) * C.t() + R).i()`; the observation matrices
are generic in their row index type so that the fused variant can supply the
restricted `C`/`R` left over from the last filtering step. -/
def lagSeedFull {r : ℕ} {ι : Type} [Fintype ι] [DecidableEq ι] (T : ℕ)
    (A : Matrix (Fin r) (Fin r) ℝ) (C : Matrix ι (Fin r) ℝ) (R : Matrix ι ι ℝ)
    (PfT PpT : ℕ → Matrix (Fin r) (Fin r) ℝ) : Matrix (Fin r) (Fin r) ℝ :=
  (1 - PpT (T - 1) * Cᵀ * (C * PpT (T - 1) * Cᵀ + R)⁻¹ * C) * A * PfT (T - 2)

/-- `lagSeedFull` applied to `tC.submat(miss, nmiss)` and
`tR.submat(miss, miss)` for a given index list `ms`. -/
def lagSeedSub {n r : ℕ} (T : ℕ) (A : Matrix (Fin r) (Fin r) ℝ)
    (C : Matrix (Fin n) (Fin r) ℝ) (R : Matrix (Fin n) (Fin n) ℝ)
    (ms : List (Fin n)) (PfT PpT : ℕ → Matrix (Fin r) (Fin r) ℝ) :
    Matrix (Fin r) (Fin r) ℝ :=
  lagSeedFull T A (subC C ms) (subR R ms) PfT PpT

/-- Slice `t` of the lag-one cross-covariance cube `PsTm`: the cube is
allocated with `T` zero slices; the seed is written at `t = T-1` and the
backward loop `for (j = 2; j < T-1; ++j)` writes slices `T-2` down to `2`;
slices `0` and `1` keep the value `0`. -/
def PsTmSel {r : ℕ} (T : ℕ) (A : Matrix (Fin r) (Fin r) ℝ)
    (PfT PpT : ℕ → Matrix (Fin r) (Fin r) ℝ)
    (seed : Matrix (Fin r) (Fin r) ℝ) (t : ℕ) : Matrix (Fin r) (Fin r) ℝ :=
  if t = T - 1 ∨ (2 ≤ t ∧ t ≤ T - 2) then PsTmAux T A PfT PpT seed (T - 1 - t)
  else 0

/-- Return value of `KalmanSmoother`: smoothed mean (`T × r`), smoothed
covariance (`T` slices) and lag-one cross-covariance (`T` slices). -/
structure KSOut (T r : ℕ) where
  Fs : Fin T → Fin r → ℝ
  Ps : Fin T → Matrix (Fin r) (Fin r) ℝ
  PsTm : Fin T → Matrix (Fin r) (Fin r) ℝ

/-- `KalmanSmoother(A, C, R, FT, PT, PfT_v, PpT_v)` of
`src/KalmanFiltering.cpp`; `T = FT.n_rows` is passed explicitly and the
histories are passed as functions of the time index (the `array2cube`
marshalling of `PfT_v`/`PpT_v` is identity in the model). -/
def KalmanSmoother {n r : ℕ} (T : ℕ) (A : Matrix (Fin r) (Fin r) ℝ)
    (C : Matrix (Fin n) (Fin r) ℝ) (R : Matrix (Fin n) (Fin n) ℝ)
    (FT PT : ℕ → Fin r → ℝ) (PfT PpT : ℕ → Matrix (Fin r) (Fin r) ℝ) :
    KSOut T r :=
  { Fs := fun t => FsAux T A FT PT PfT PpT (T - 1 - t.val)
    Ps := fun t => PsAux T A PfT PpT (T - 1 - t.val)
    PsTm := fun t =>
      PsTmSel T A PfT PpT (lagSeedFull T A C R PfT PpT) t.val }

/-- Return value of `KalmanFilterSmoother`: smoothed mean/covariance
history, lag-one cross-covariance history, and total log-likelihood. -/
structure KFSOut (T r : ℕ) where
  Fs : Fin T → Fin r → ℝ
  Ps : Fin T → Matrix (Fin r) (Fin r) ℝ
  PsTm : Fin T → Matrix (Fin r) (Fin r) ℝ
  loglik : ℝ

/-- `KalmanFilterSmoother(X, C, Q, R, A, F0, P0)` of
`src/KalmanFiltering.cpp`: the filtering loop is the one of `KalmanFilter`
(the source duplicates it verbatim), followed by the smoothing passes run on
the filter's histories.  At the end of the filtering loop the variables `C`
and `R` hold `tC.submat(miss, nmiss)` and `tR.submat(miss, miss)` of the
last time step `T-1`, so the lag-one seed uses those restricted matrices.
This definition gives the value computed on the conforming domain of the
tail's fixed-size cube-slice assignments `L.slice(i) = ...` and
`KS.slice(i) = ...` (all channels observed at the last step); the runtime
conformance check itself is modelled by `KalmanFilterSmootherChecked`. -/
def KalmanFilterSmoother {n r : ℕ} (T : ℕ) (X : ℕ → Fin n → Option ℝ)
    (C : Matrix (Fin n) (Fin r) ℝ) (Q : Matrix (Fin r) (Fin r) ℝ)
    (R : Matrix (Fin n) (Fin n) ℝ) (A : Matrix (Fin r) (Fin r) ℝ)
    (F0 : Fin r → ℝ) (P0 : Matrix (Fin r) (Fin r) ℝ) : KFSOut T r :=
  { Fs := fun t => FsAux T A (FThist X C Q R A F0 P0) (PThist T X C Q R A F0 P0)
      (PfThist X C Q R A F0 P0) (PpThist T X C Q R A F0 P0) (T - 1 - t.val)
    Ps := fun t => PsAux T A (PfThist X C Q R A F0 P0)
      (PpThist T X C Q R A F0 P0) (T - 1 - t.val)
    PsTm := fun t => PsTmSel T A (PfThist X C Q R A F0 P0)
      (PpThist T X C Q R A F0 P0)
      (lagSeedSub T A C R (missIdx (X (T - 1)))
        (PfThist X C Q R A F0 P0) (PpThist T X C Q R A F0 P0)) t.val
    loglik := (kfSeq X C Q R A F0 P0 T).loglik }

/-- `KalmanFilterSmoother` with Armadillo's runtime conformance check of the
lag-one tail's cube-slice assignments: `L.slice(i)` is a fixed `n x n` slice
and `KS.slice(i)` a fixed `rp x n` slice, while the assigned matrices
`(C * PpT.slice(i) * C.t() + R).i()` and `PpT.slice(i) * C.t() * L.slice(i)`
have `|miss|` rows/columns for `miss = find_finite(X.row(T-1))` (the
restricted `C`/`R` left from the last filtering iteration).  The assignment
conforms iff `|miss| = n`, i.e. iff every channel is observed at the last
time step; otherwise the source throws `std::logic_error` and returns
nothing, modelled as `none`. -/
def KalmanFilterSmootherChecked {n r : ℕ} (T : ℕ) (X : ℕ → Fin n → Option ℝ)
    (C : Matrix (Fin n) (Fin r) ℝ) (Q : Matrix (Fin r) (Fin r) ℝ)
    (R : Matrix (Fin n) (Fin n) ℝ) (A : Matrix (Fin r) (Fin r) ℝ)
    (F0 : Fin r → ℝ) (P0 : Matrix (Fin r) (Fin r) ℝ) :
    Option (KFSOut T r) :=
  if (missIdx (X (T - 1))).length = n then
    some (KalmanFilterSmoother T X C Q R A F0 P0)
  else none

/-- `X.row(t).t() * Fs.row(t)` and friends: outer product of two vectors. -/
def outerProd {ι κ : Type} (u : ι → ℝ) (v : κ → ℝ) : Matrix ι κ ℝ :=
  Matrix.of fun i j => u i * v j

/-- Return value of `Estep`: the E-step sufficient statistics, the updated
initial state estimate, and the total log-likelihood. -/
structure EOut (n r : ℕ) where
  beta : Matrix (Fin r) (Fin r) ℝ
  gamma : Matrix (Fin r) (Fin r) ℝ
  delta : Matrix (Fin n) (Fin r) ℝ
  gamma1 : Matrix (Fin r) (Fin r) ℝ
  gamma2 : Matrix (Fin r) (Fin r) ℝ
  F0 : Fin r → ℝ
  P0 : Matrix (Fin r) (Fin r) ℝ
  loglik : ℝ

/-- `Estep(X, C, Q, R, A, F0, P0)` of `src/EM_algorithm.cpp`: runs
`KalmanFilterSmoother`, zeroes the non-finite entries of `X`
(`X(find_nonfinite(X)).zeros()`), and accumulates the sufficient statistics.
The `0 < T` guards model that the source indexes `Fs.row(T-1)` and
`Fs.row(0)`, which only exist for `T ≥ 1`. On inputs where a channel is
missing at the last time step the source call would throw inside
`KalmanFilterSmoother` (see `KalmanFilterSmootherChecked`); the statistics
below are the values computed on the returning domain. -/
def Estep {n r : ℕ} (T : ℕ) (X : ℕ → Fin n → Option ℝ)
    (C : Matrix (Fin n) (Fin r) ℝ) (Q : Matrix (Fin r) (Fin r) ℝ)
    (R : Matrix (Fin n) (Fin n) ℝ) (A : Matrix (Fin r) (Fin r) ℝ)
    (F0 : Fin r → ℝ) (P0 : Matrix (Fin r) (Fin r) ℝ) : EOut n r :=
  let ks := KalmanFilterSmoother T X C Q R A F0 P0
  let X0 : ℕ → Fin n → ℝ := fun t i => (X t i).getD 0
  let gamma : Matrix (Fin r) (Fin r) ℝ :=
    ∑ t : Fin T, (outerProd (ks.Fs t) (ks.Fs t) + ks.Ps t)
  { beta := ∑ t : Fin T,
      if h : 0 < t.val then
        outerProd (ks.Fs t) (ks.Fs ⟨t.val - 1, by omega⟩) + ks.PsTm t
      else 0
    gamma := gamma
    delta := ∑ t : Fin T, outerProd (X0 t) (ks.Fs t)
    gamma1 := if h : 0 < T then
        gamma - outerProd (ks.Fs ⟨T - 1, by omega⟩) (ks.Fs ⟨T - 1, by omega⟩)
          - ks.Ps ⟨T - 1, by omega⟩
      else 0
    gamma2 := if h : 0 < T then
        gamma - outerProd (ks.Fs ⟨0, h⟩) (ks.Fs ⟨0, h⟩) - ks.Ps ⟨0, h⟩
      else 0
    F0 := if h : 0 < T then ks.Fs ⟨0, h⟩ else 0
    P0 := if h : 0 < T then ks.Ps ⟨0, h⟩ else 0
    loglik := ks.loglik }

/-!
Dimension-checked Armadillo layer.  The typed model above can only represent
transition matrices `A` whose first row is entirely finite (real entries).
To settle what happens when `find_finite(A.row(0))` is a strict subset of the
state dimensions — the `nmiss` column mask — we model Armadillo's dense
matrices untyped, with the runtime conformance check that `arma::mat`
multiplication performs (`M.n_cols == N.n_rows`, otherwise a
`std::logic_error` is thrown, modelled as `none`).
-/

/-- An Armadillo dense real matrix: a size and an entry function. -/
structure AMat where
  rows : ℕ
  cols : ℕ
  ent : ℕ → ℕ → ℝ

/-- Armadillo matrix multiplication with its runtime conformance check:
`M * N` requires `M.n_cols == N.n_rows` and otherwise throws. -/
def amul (M N : AMat) : Option AMat :=
  if M.cols = N.rows then
    some ⟨M.rows, N.cols,
      fun i k => ∑ j ∈ Finset.range M.cols, M.ent i j * N.ent j k⟩
  else none

/-- `M.submat(ri, ci)`: the submatrix picking rows `ri` and columns `ci`. -/
def asubmat (M : AMat) (ri ci : List ℕ) : AMat :=
  ⟨ri.length, ci.length, fun i j => M.ent (ri.getD i 0) (ci.getD j 0)⟩

/-- `find_finite` of a row of length `len` whose machine entries are
modelled as `Option ℝ` (`none` = non-finite): the ordered positions of the
finite entries. -/
def findFiniteIdx (v : ℕ → Option ℝ) (len : ℕ) : List ℕ :=
  (List.range len).filter fun j => (v j).isSome

/-- The first multiplication `C * Pp` evaluated inside
`S = (C * Pp * C.t() + R).i()` at a filtering step of `KalmanFilter`, after
the restriction `C = tC.submat(miss, nmiss)` with
`nmiss = find_finite(A.row(0))` (computed once, before the loop, hence the
same at every `t`) and `miss = find_finite(X.row(t))`.  `rp = A.n_rows` and
`nchan = X.n_cols`. -/
def kfFirstMul (tC : AMat) (Arow0 : ℕ → Option ℝ) (rp : ℕ)
    (Xrow : ℕ → Option ℝ) (nchan : ℕ) (Pp : AMat) : Option AMat :=
  amul (asubmat tC (findFiniteIdx Xrow nchan) (findFiniteIdx Arow0 rp)) Pp

/-!
Concrete inputs used by counterexamples and witnesses.
-/

/-- A data series whose rows are all entirely missing. -/
def XallMiss (n : ℕ) : ℕ → Fin n → Option ℝ := fun _ _ => none

/-- A data series whose entries are all observed, with value `1`. -/
def XallOne (n : ℕ) : ℕ → Fin n → Option ℝ := fun _ _ => some 1

/-- A data series whose first row is observed (value `1`) and whose later
rows are entirely missing. -/
def XoneThenMiss (n : ℕ) : ℕ → Fin n → Option ℝ :=
  fun t _ => if t = 0 then some 1 else none

/-- A non-symmetric `2 × 2` transition matrix. -/
def Amat2 : Matrix (Fin 2) (Fin 2) ℝ := !![1, 1; 0, 1]

/-- A `1 × 2` observation matrix loading only the first state dimension. -/
def Cmat12 : Matrix (Fin 1) (Fin 2) ℝ := !![1, 0]

/-- The canonical equivalence between the positions of `List.finRange n` and
`Fin n`, used to relate a trivial restriction (`miss` = all channels) to the
unrestricted matrices. -/
def finRangeEquiv (n : ℕ) : Fin (List.finRange n).length ≃ Fin n :=
  finCongr (List.length_finRange n)

/-!
Helper lemmas: the degenerate restriction (all channels missing).  When
`miss` is empty, the restricted matrices are empty: products through them
are zero matrices, and the determinant of the empty innovation covariance
is `1` (Armadillo's and Mathlib's shared convention).
-/

theorem isEmpty_fin_length_nil {α : Type} : IsEmpty (Fin (List.length ([] : List α))) :=
  ⟨fun i => absurd i.isLt (by simp)⟩

theorem mulVec_of_isEmpty {ι κ : Type} [Fintype ι] [IsEmpty ι]
    (M : Matrix κ ι ℝ) (v : ι → ℝ) : M.mulVec v = 0 := by
  funext j
  simp [Matrix.mulVec, Matrix.dotProduct, Finset.univ_eq_empty]

theorem mul_of_isEmpty_mid {ι κ κ' : Type} [Fintype ι] [IsEmpty ι]
    (M : Matrix κ ι ℝ) (N : Matrix ι κ' ℝ) : M * N = 0 := by
  ext i j
  simp [Matrix.mul_apply, Finset.univ_eq_empty]

theorem dot_of_isEmpty {ι : Type} [Fintype ι] [IsEmpty ι] (u v : ι → ℝ) :
    u ⬝ᵥ v = 0 := by
  simp [Matrix.dotProduct, Finset.univ_eq_empty]

/-- `find_finite(X.row(t))` is empty iff the row is entirely non-finite. -/
theorem missIdx_eq_nil {n : ℕ} {x : Fin n → Option ℝ} (h : ∀ i, x i = none) :
    missIdx x = [] := by
  simp [missIdx, List.filter_eq_nil_iff, h]

/-- With an empty restriction the filtered mean equals the predicted mean. -/
theorem ffUpd_nil {n r : ℕ} (C : Matrix (Fin n) (Fin r) ℝ)
    (R : Matrix (Fin n) (Fin n) ℝ) (x : Fin n → Option ℝ) (fp : Fin r → ℝ)
    (Pp : Matrix (Fin r) (Fin r) ℝ) :
    ffUpd C R ([] : List (Fin n)) x fp Pp = fp := by
  haveI := isEmpty_fin_length_nil (α := Fin n)
  rw [ffUpd, mulVec_of_isEmpty, add_zero]

/-- With an empty restriction the filtered covariance equals the predicted
covariance. -/
theorem PfUpd_nil {n r : ℕ} (C : Matrix (Fin n) (Fin r) ℝ)
    (R : Matrix (Fin n) (Fin n) ℝ) (Pp : Matrix (Fin r) (Fin r) ℝ) :
    PfUpd C R ([] : List (Fin n)) Pp = Pp := by
  haveI := isEmpty_fin_length_nil (α := Fin n)
  have h : Kmat C R ([] : List (Fin n)) Pp * subC C ([] : List (Fin n)) = 0 :=
    mul_of_isEmpty_mid _ _
  rw [PfUpd, h, zero_mul, sub_zero]

/-- With an empty restriction the innovation covariance is the empty matrix,
whose determinant is `1`, so the guard passes and the likelihood increment
is the pure constant term `-(1/2) * n * log(2*pi)`. -/
theorem llInc_nil {n r : ℕ} (C : Matrix (Fin n) (Fin r) ℝ)
    (R : Matrix (Fin n) (Fin n) ℝ) (x : Fin n → Option ℝ) (fp : Fin r → ℝ)
    (Pp : Matrix (Fin r) (Fin r) ℝ) :
    llInc C R ([] : List (Fin n)) x fp Pp
      = -(1 / 2) * ((n : ℝ) * Real.log (2 * Real.pi)) := by
  haveI := isEmpty_fin_length_nil (α := Fin n)
  have hdet : (Smat C R ([] : List (Fin n)) Pp).det = 1 := Matrix.det_isEmpty
  have hq : xeVec C x ([] : List (Fin n)) fp ⬝ᵥ
      (Smat C R ([] : List (Fin n)) Pp).mulVec (xeVec C x ([] : List (Fin n)) fp)
      = 0 := dot_of_isEmpty _ _
  rw [llInc, hdet, hq]
  simp

/-- With an empty restriction the lag-one seed degenerates to
`A * PfT.slice(T-2)`. -/
theorem lagSeedSub_nil {n r : ℕ} (T : ℕ) (A : Matrix (Fin r) (Fin r) ℝ)
    (C : Matrix (Fin n) (Fin r) ℝ) (R : Matrix (Fin n) (Fin n) ℝ)
    (PfT PpT : ℕ → Matrix (Fin r) (Fin r) ℝ) :
    lagSeedSub T A C R ([] : List (Fin n)) PfT PpT = A * PfT (T - 2) := by
  haveI := isEmpty_fin_length_nil (α := Fin n)
  have h : PpT (T - 1) * (subC C ([] : List (Fin n)))ᵀ *
      (subC C ([] : List (Fin n)) * PpT (T - 1) * (subC C ([] : List (Fin n)))ᵀ
        + subR R ([] : List (Fin n)))⁻¹ * subC C ([] : List (Fin n)) = 0 :=
    mul_of_isEmpty_mid _ _
  rw [lagSeedSub, lagSeedFull, h, sub_zero, one_mul]

/-!
Helper lemmas: the trivial restriction (all channels observed).  When every
entry of `X.row(t)` is finite, `miss = find_finite(X.row(t))` is the whole
index range and the restricted step is the unrestricted one, up to the
reindexing `finRangeEquiv`.
-/

theorem get_finRange_eq {n : ℕ} (i : Fin (List.finRange n).length) :
    (List.finRange n).get i = finRangeEquiv n i := by
  rcases i with ⟨iv, hi⟩
  apply Fin.ext
  simp [List.get_finRange, finRangeEquiv]

theorem submatrix_mul_fun_left {ι m p q : Type} [Fintype p]
    (M : Matrix m p ℝ) (N : Matrix p q ℝ) (e : ι → m) :
    M.submatrix e id * N = (M * N).submatrix e id := by
  ext i j
  simp [Matrix.mul_apply, Matrix.submatrix_apply]

theorem submatrix_mul_fun_right {ι m p q : Type} [Fintype p]
    (M : Matrix m p ℝ) (N : Matrix p q ℝ) (e : ι → q) :
    M * N.submatrix id e = (M * N).submatrix id e := by
  ext i j
  simp [Matrix.mul_apply, Matrix.submatrix_apply]

theorem submatrix_mul_fun_outer {ι κ m p q : Type} [Fintype p]
    (M : Matrix m p ℝ) (N : Matrix p q ℝ) (e : ι → m) (f : κ → q) :
    M.submatrix e id * N.submatrix id f = (M * N).submatrix e f := by
  ext i j
  simp [Matrix.mul_apply, Matrix.submatrix_apply]

theorem submatrix_mulVec_fun_left {ι m p : Type} [Fintype p]
    (M : Matrix m p ℝ) (e : ι → m) (v : p → ℝ) :
    (M.submatrix e id).mulVec v = M.mulVec v ∘ e := by
  funext i
  simp [Matrix.mulVec, Matrix.dotProduct, Matrix.submatrix_apply]

theorem submatrix_mulVec_id_e {ι m p : Type} [Fintype p] [Fintype ι]
    (M : Matrix m p ℝ) (e : ι ≃ p) (w : p → ℝ) :
    (M.submatrix id ⇑e).mulVec (w ∘ ⇑e) = M.mulVec w := by
  funext i
  simp only [Matrix.mulVec, Matrix.dotProduct, Matrix.submatrix_apply,
    Function.comp_apply, id]
  exact Equiv.sum_comp e fun k => M i k * w k

theorem submatrix_mulVec_e_e {ι p : Type} [Fintype p] [Fintype ι]
    (M : Matrix p p ℝ) (e : ι ≃ p) (w : p → ℝ) :
    (M.submatrix ⇑e ⇑e).mulVec (w ∘ ⇑e) = M.mulVec w ∘ ⇑e := by
  funext i
  simp only [Matrix.mulVec, Matrix.dotProduct, Matrix.submatrix_apply,
    Function.comp_apply]
  exact Equiv.sum_comp e fun k => M (e i) k * w k

theorem dot_comp_equiv {ι p : Type} [Fintype p] [Fintype ι] (e : ι ≃ p)
    (u w : p → ℝ) : (u ∘ ⇑e) ⬝ᵥ (w ∘ ⇑e) = u ⬝ᵥ w := by
  simp only [Matrix.dotProduct, Function.comp_apply]
  exact Equiv.sum_comp e fun k => u k * w k

/-- Permuting rows and columns of a square matrix with the same equivalence
commutes with the (determinant-adjugate) matrix inverse. -/
theorem inv_submatrix_equiv {ι κ : Type} [Fintype ι] [DecidableEq ι]
    [Fintype κ] [DecidableEq κ] (e : ι ≃ κ) (M : Matrix κ κ ℝ) :
    (M.submatrix ⇑e ⇑e)⁻¹ = M⁻¹.submatrix ⇑e ⇑e := by
  rw [Matrix.inv_def, Matrix.inv_def, Matrix.det_submatrix_equiv_self,
    Matrix.adjugate_submatrix_equiv_self]
  ext i j
  simp [Matrix.submatrix_apply]

/-- `find_finite(X.row(t))` is the whole index range iff the row is fully
observed. -/
theorem missIdx_eq_finRange {n : ℕ} {x : Fin n → Option ℝ}
    (h : ∀ i, (x i).isSome = true) : missIdx x = List.finRange n :=
  List.filter_eq_self.mpr fun i _ => h i

theorem subC_finRange {n r : ℕ} (C : Matrix (Fin n) (Fin r) ℝ) :
    subC C (List.finRange n) = C.submatrix (⇑(finRangeEquiv n)) id := by
  ext i j
  simp [subC, Matrix.submatrix_apply, get_finRange_eq, finRangeEquiv]

theorem subR_finRange {n : ℕ} (R : Matrix (Fin n) (Fin n) ℝ) :
    subR R (List.finRange n) = R.submatrix (⇑(finRangeEquiv n)) (⇑(finRangeEquiv n)) := by
  ext i j
  simp [subR, Matrix.submatrix_apply, get_finRange_eq, finRangeEquiv]

theorem subX_finRange {n : ℕ} (x : Fin n → Option ℝ) :
    subX x (List.finRange n) = (fun i => (x i).getD 0) ∘ ⇑(finRangeEquiv n) := by
  funext i
  simp [subX, get_finRange_eq, finRangeEquiv]

theorem Smat_finRange {n r : ℕ} (C : Matrix (Fin n) (Fin r) ℝ)
    (R : Matrix (Fin n) (Fin n) ℝ) (Pp : Matrix (Fin r) (Fin r) ℝ) :
    Smat C R (List.finRange n) Pp
      = ((C * Pp * Cᵀ + R)⁻¹).submatrix (⇑(finRangeEquiv n)) (⇑(finRangeEquiv n)) := by
  have hsum : subC C (List.finRange n) * Pp * (subC C (List.finRange n))ᵀ
      + subR R (List.finRange n)
      = (C * Pp * Cᵀ + R).submatrix (⇑(finRangeEquiv n)) (⇑(finRangeEquiv n)) := by
    rw [subC_finRange, subR_finRange, Matrix.transpose_submatrix,
      submatrix_mul_fun_left, submatrix_mul_fun_outer]
    ext i j
    simp [Matrix.submatrix_apply, Matrix.add_apply]
  rw [Smat, hsum, inv_submatrix_equiv]

theorem xeVec_finRange {n r : ℕ} (C : Matrix (Fin n) (Fin r) ℝ)
    (x : Fin n → Option ℝ) (fp : Fin r → ℝ) :
    xeVec C x (List.finRange n) fp
      = ((fun i => (x i).getD 0) - C.mulVec fp) ∘ ⇑(finRangeEquiv n) := by
  funext i
  rw [xeVec, subC_finRange]
  simp [subX_finRange, submatrix_mulVec_fun_left]

theorem Kmat_finRange {n r : ℕ} (C : Matrix (Fin n) (Fin r) ℝ)
    (R : Matrix (Fin n) (Fin n) ℝ) (Pp : Matrix (Fin r) (Fin r) ℝ) :
    Kmat C R (List.finRange n) Pp
      = (Pp * Cᵀ * (C * Pp * Cᵀ + R)⁻¹).submatrix id (⇑(finRangeEquiv n)) := by
  rw [Kmat, Smat_finRange, subC_finRange, Matrix.transpose_submatrix,
    submatrix_mul_fun_right, Matrix.submatrix_mul_equiv]

/-- Fully observed row: the filtered mean update is the unrestricted one. -/
theorem ffUpd_obs {n r : ℕ} {x : Fin n → Option ℝ}
    (h : ∀ i, (x i).isSome = true) (C : Matrix (Fin n) (Fin r) ℝ)
    (R : Matrix (Fin n) (Fin n) ℝ) (fp : Fin r → ℝ)
    (Pp : Matrix (Fin r) (Fin r) ℝ) :
    ffUpd C R (missIdx x) x fp Pp
      = fp + (Pp * Cᵀ * (C * Pp * Cᵀ + R)⁻¹).mulVec
          ((fun i => (x i).getD 0) - C.mulVec fp) := by
  rw [missIdx_eq_finRange h, ffUpd, Kmat_finRange, xeVec_finRange,
    submatrix_mulVec_id_e]

/-- Fully observed row: the filtered covariance update is the unrestricted
one. -/
theorem PfUpd_obs {n r : ℕ} {x : Fin n → Option ℝ}
    (h : ∀ i, (x i).isSome = true) (C : Matrix (Fin n) (Fin r) ℝ)
    (R : Matrix (Fin n) (Fin n) ℝ) (Pp : Matrix (Fin r) (Fin r) ℝ) :
    PfUpd C R (missIdx x) Pp
      = Pp - Pp * Cᵀ * (C * Pp * Cᵀ + R)⁻¹ * C * Pp := by
  rw [PfUpd, missIdx_eq_finRange h, Kmat_finRange, subC_finRange,
    Matrix.submatrix_mul_equiv, Matrix.submatrix_id_id]

/-- Fully observed row: the determinant of the restricted (inverted)
innovation covariance is that of the unrestricted one. -/
theorem Smat_det_obs {n r : ℕ} {x : Fin n → Option ℝ}
    (h : ∀ i, (x i).isSome = true) (C : Matrix (Fin n) (Fin r) ℝ)
    (R : Matrix (Fin n) (Fin n) ℝ) (Pp : Matrix (Fin r) (Fin r) ℝ) :
    (Smat C R (missIdx x) Pp).det = ((C * Pp * Cᵀ + R)⁻¹).det := by
  rw [missIdx_eq_finRange h, Smat_finRange, Matrix.det_submatrix_equiv_self]

/-- Fully observed row: the quadratic form `xe.t() * S * xe` is the
unrestricted one. -/
theorem Smat_quad_obs {n r : ℕ} {x : Fin n → Option ℝ}
    (h : ∀ i, (x i).isSome = true) (C : Matrix (Fin n) (Fin r) ℝ)
    (R : Matrix (Fin n) (Fin n) ℝ) (fp : Fin r → ℝ)
    (Pp : Matrix (Fin r) (Fin r) ℝ) :
    xeVec C x (missIdx x) fp ⬝ᵥ
        (Smat C R (missIdx x) Pp).mulVec (xeVec C x (missIdx x) fp)
      = ((fun i => (x i).getD 0) - C.mulVec fp) ⬝ᵥ
          ((C * Pp * Cᵀ + R)⁻¹).mulVec ((fun i => (x i).getD 0) - C.mulVec fp) := by
  rw [missIdx_eq_finRange h, Smat_finRange, xeVec_finRange,
    submatrix_mulVec_e_e, dot_comp_equiv]

/-- Fully observed row: the quadratic form `xe.t() * S.i() * xe` (with the
extra inversion of the claim's literal formula) is the unrestricted one. -/
theorem Smat_quadInv_obs {n r : ℕ} {x : Fin n → Option ℝ}
    (h : ∀ i, (x i).isSome = true) (C : Matrix (Fin n) (Fin r) ℝ)
    (R : Matrix (Fin n) (Fin n) ℝ) (fp : Fin r → ℝ)
    (Pp : Matrix (Fin r) (Fin r) ℝ) :
    xeVec C x (missIdx x) fp ⬝ᵥ
        ((Smat C R (missIdx x) Pp)⁻¹).mulVec (xeVec C x (missIdx x) fp)
      = ((fun i => (x i).getD 0) - C.mulVec fp) ⬝ᵥ
          (((C * Pp * Cᵀ + R)⁻¹)⁻¹).mulVec ((fun i => (x i).getD 0) - C.mulVec fp) := by
  rw [missIdx_eq_finRange h, Smat_finRange, inv_submatrix_equiv, xeVec_finRange,
    submatrix_mulVec_e_e, dot_comp_equiv]

/-- Fully observed row: the likelihood increment is the unrestricted one. -/
theorem llInc_obs {n r : ℕ} {x : Fin n → Option ℝ}
    (h : ∀ i, (x i).isSome = true) (C : Matrix (Fin n) (Fin r) ℝ)
    (R : Matrix (Fin n) (Fin n) ℝ) (fp : Fin r → ℝ)
    (Pp : Matrix (Fin r) (Fin r) ℝ) :
    llInc C R (missIdx x) x fp Pp
      = if 0 < ((C * Pp * Cᵀ + R)⁻¹).det then
          -(1 / 2) * ((n : ℝ) * Real.log (2 * Real.pi)
            - Real.log ((C * Pp * Cᵀ + R)⁻¹).det
            + ((fun i => (x i).getD 0) - C.mulVec fp) ⬝ᵥ
                ((C * Pp * Cᵀ + R)⁻¹).mulVec
                  ((fun i => (x i).getD 0) - C.mulVec fp))
        else 0 := by
  rw [llInc, Smat_det_obs h, Smat_quad_obs h]

/-- Fully observed last row: the fused variant's lag-one seed coincides with
the unrestricted one. -/
theorem lagSeedSub_obs {n r : ℕ} {x : Fin n → Option ℝ}
    (h : ∀ i, (x i).isSome = true) (T : ℕ) (A : Matrix (Fin r) (Fin r) ℝ)
    (C : Matrix (Fin n) (Fin r) ℝ) (R : Matrix (Fin n) (Fin n) ℝ)
    (PfT PpT : ℕ → Matrix (Fin r) (Fin r) ℝ) :
    lagSeedSub T A C R (missIdx x) PfT PpT = lagSeedFull T A C R PfT PpT := by
  rw [lagSeedSub, lagSeedFull, lagSeedFull]
  have hS : (subC C (missIdx x) * PpT (T - 1) * (subC C (missIdx x))ᵀ
      + subR R (missIdx x))⁻¹ = Smat C R (missIdx x) (PpT (T - 1)) := rfl
  rw [hS, missIdx_eq_finRange h, Smat_finRange, subC_finRange,
    Matrix.transpose_submatrix, submatrix_mul_fun_right,
    Matrix.submatrix_mul_equiv, Matrix.submatrix_mul_equiv,
    Matrix.submatrix_id_id]

/-!
Helper lemmas: symmetry propagation through the filter and smoother
recursions, and evaluation of `1 × 1` inverses.
-/

theorem subR_transpose {n : ℕ} (R : Matrix (Fin n) (Fin n) ℝ)
    (ms : List (Fin n)) (h : Rᵀ = R) : (subR R ms)ᵀ = subR R ms := by
  ext i j
  simp only [subR, Matrix.transpose_apply, Matrix.of_apply]
  exact (congrFun (congrFun h (ms.get j)) (ms.get i)).symm

theorem Smat_transpose {n r : ℕ} (C : Matrix (Fin n) (Fin r) ℝ)
    (R : Matrix (Fin n) (Fin n) ℝ) (ms : List (Fin n))
    (Pp : Matrix (Fin r) (Fin r) ℝ) (hR : Rᵀ = R) (hPp : Ppᵀ = Pp) :
    (Smat C R ms Pp)ᵀ = Smat C R ms Pp := by
  rw [Smat, Matrix.transpose_nonsing_inv]
  congr 1
  rw [Matrix.transpose_add, subR_transpose R ms hR, Matrix.transpose_mul,
    Matrix.transpose_mul, Matrix.transpose_transpose, hPp, Matrix.mul_assoc]

theorem PfUpd_transpose {n r : ℕ} (C : Matrix (Fin n) (Fin r) ℝ)
    (R : Matrix (Fin n) (Fin n) ℝ) (ms : List (Fin n))
    (Pp : Matrix (Fin r) (Fin r) ℝ) (hR : Rᵀ = R) (hPp : Ppᵀ = Pp) :
    (PfUpd C R ms Pp)ᵀ = PfUpd C R ms Pp := by
  rw [PfUpd, Kmat, Matrix.transpose_sub, hPp]
  congr 1
  rw [Matrix.transpose_mul, Matrix.transpose_mul, Matrix.transpose_mul,
    Matrix.transpose_mul, Matrix.transpose_transpose, hPp,
    Smat_transpose C R ms Pp hR hPp]
  simp [Matrix.mul_assoc]

theorem kfSeq_Pp_symm {n r : ℕ} (X : ℕ → Fin n → Option ℝ)
    (C : Matrix (Fin n) (Fin r) ℝ) (Q : Matrix (Fin r) (Fin r) ℝ)
    (R : Matrix (Fin n) (Fin n) ℝ) (A : Matrix (Fin r) (Fin r) ℝ)
    (F0 : Fin r → ℝ) (P0 : Matrix (Fin r) (Fin r) ℝ)
    (hP0 : P0ᵀ = P0) (hQ : Qᵀ = Q) (hR : Rᵀ = R) (t : ℕ) :
    ((kfSeq X C Q R A F0 P0 t).Pp)ᵀ = (kfSeq X C Q R A F0 P0 t).Pp := by
  induction t with
  | zero => exact hP0
  | succ t ih =>
    show (A * PfUpd C R (missIdx (X t)) (kfSeq X C Q R A F0 P0 t).Pp * Aᵀ + Q)ᵀ = _
    rw [Matrix.transpose_add, hQ, Matrix.transpose_mul, Matrix.transpose_mul,
      Matrix.transpose_transpose, PfUpd_transpose C R _ _ hR ih,
      ← Matrix.mul_assoc]
    rfl

theorem PsAux_symm {r : ℕ} (T : ℕ) (A : Matrix (Fin r) (Fin r) ℝ)
    (PfT PpT : ℕ → Matrix (Fin r) (Fin r) ℝ)
    (hPf : ∀ t, (PfT t)ᵀ = PfT t) (hPp : ∀ t, (PpT t)ᵀ = PpT t) (d : ℕ) :
    (PsAux T A PfT PpT d)ᵀ = PsAux T A PfT PpT d := by
  induction d with
  | zero => exact hPf (T - 1)
  | succ d ih =>
    show (PfT (T - 2 - d) + Jhist T A PfT PpT (T - 2 - d) *
        (PsAux T A PfT PpT d - PpT (T - 1 - d)) *
        (Jhist T A PfT PpT (T - 2 - d))ᵀ)ᵀ = _
    rw [Matrix.transpose_add, hPf, Matrix.transpose_mul, Matrix.transpose_mul,
      Matrix.transpose_transpose, Matrix.transpose_sub, ih, hPp,
      ← Matrix.mul_assoc]
    rfl

theorem inv_fin_one (M : Matrix (Fin 1) (Fin 1) ℝ) : M⁻¹ = !![(M 0 0)⁻¹] := by
  rw [Matrix.inv_def, Matrix.adjugate_fin_one, Matrix.det_fin_one]
  ext i j
  fin_cases i
  fin_cases j
  simp [Ring.inverse_eq_inv']

/-!
Claim C6.
-/

/-- C6: for every input and every time step `t < T` whose row `X[t]` is
entirely not-a-number, `KalmanFilter` does not crash (the model is total) and
stores a filtered mean equal to the predicted mean and a filtered covariance
equal to the predicted covariance at that step: the update degenerates to a
pure prediction. -/
theorem c6_all_missing_pure_prediction {n r : ℕ} (T : ℕ)
    (X : ℕ → Fin n → Option ℝ) (C : Matrix (Fin n) (Fin r) ℝ)
    (Q : Matrix (Fin r) (Fin r) ℝ) (R : Matrix (Fin n) (Fin n) ℝ)
    (A : Matrix (Fin r) (Fin r) ℝ) (F0 : Fin r → ℝ)
    (P0 : Matrix (Fin r) (Fin r) ℝ) (t : ℕ) (ht : t < T)
    (hmiss : ∀ i, X t i = none) :
    (KalmanFilter T X C Q R A F0 P0).F ⟨t, ht⟩
      = (KalmanFilter T X C Q R A F0 P0).P ⟨t, Nat.lt_succ_of_lt ht⟩
    ∧ (KalmanFilter T X C Q R A F0 P0).Pf ⟨t, ht⟩
      = (KalmanFilter T X C Q R A F0 P0).Pp ⟨t, Nat.lt_succ_of_lt ht⟩ := by
  constructor
  · show FThist X C Q R A F0 P0 t = PThist T X C Q R A F0 P0 t
    rw [FThist, PThist, if_pos ht, missIdx_eq_nil hmiss, ffUpd_nil]
  · show PfThist X C Q R A F0 P0 t = PpThist T X C Q R A F0 P0 t
    rw [PfThist, PpThist, if_pos ht, missIdx_eq_nil hmiss, PfUpd_nil]

theorem c6_all_missing_pure_prediction_witness :
    (0 < 1 ∧ ∀ i : Fin 1, XallMiss 1 0 i = none) ∧
    ((KalmanFilter 1 (XallMiss 1) (1 : Matrix (Fin 1) (Fin 1) ℝ) 1 1 1 0 1).F
          ⟨0, Nat.one_pos⟩
        = (KalmanFilter 1 (XallMiss 1) (1 : Matrix (Fin 1) (Fin 1) ℝ) 1 1 1 0 1).P
          ⟨0, by norm_num⟩
      ∧ (KalmanFilter 1 (XallMiss 1) (1 : Matrix (Fin 1) (Fin 1) ℝ) 1 1 1 0 1).Pf
          ⟨0, Nat.one_pos⟩
        = (KalmanFilter 1 (XallMiss 1) (1 : Matrix (Fin 1) (Fin 1) ℝ) 1 1 1 0 1).Pp
          ⟨0, by norm_num⟩) :=
  ⟨⟨Nat.one_pos, fun _ => rfl⟩,
    c6_all_missing_pure_prediction 1 (XallMiss 1) 1 1 1 1 0 1 0 Nat.one_pos
      fun _ => rfl⟩

/-!
Claim C1.
-/

/-- C1 counterexample: on a series consisting of a single entirely-missing
row, the log-likelihood returned by `KalmanFilter` is not `0`: the claim
that an all-missing step leaves the running log-likelihood unaltered fails.
(The restricted innovation covariance is the empty matrix, whose determinant
is `1`, so the guard passes and the constant term `-(n/2)*log(2*pi)`
accumulates.) -/
theorem c1_missing_row_loglik_counterexample :
    (KalmanFilter 1 (XallMiss 1) (1 : Matrix (Fin 1) (Fin 1) ℝ) 1 1 1 0 1).loglik
      ≠ 0 := by
  have hval : (KalmanFilter 1 (XallMiss 1) (1 : Matrix (Fin 1) (Fin 1) ℝ)
      1 1 1 0 1).loglik = -(1 / 2) * ((1 : ℝ) * Real.log (2 * Real.pi)) := by
    show (0 : ℝ) + llInc (1 : Matrix (Fin 1) (Fin 1) ℝ) 1
        (missIdx (XallMiss 1 0)) (XallMiss 1 0) 0 1 = _
    rw [missIdx_eq_nil (x := XallMiss 1 0) fun _ => rfl, llInc_nil, zero_add]
    norm_num
  rw [hval]
  have hπ : 0 < Real.log (2 * Real.pi) :=
    Real.log_pos (by nlinarith [Real.pi_gt_three])
  intro hc
  nlinarith [hπ]

/-- C1 amended: at a time step whose row of `X` is entirely not-a-number the
running log-likelihood accumulator IS altered: it decreases by exactly
`(n/2) * log(2*pi)` (the guard `det(S) > 0` passes because the empty
restricted innovation covariance has determinant `1`, and the data-dependent
terms vanish). -/
theorem c1_missing_row_loglik_amended {n r : ℕ} (X : ℕ → Fin n → Option ℝ)
    (C : Matrix (Fin n) (Fin r) ℝ) (Q : Matrix (Fin r) (Fin r) ℝ)
    (R : Matrix (Fin n) (Fin n) ℝ) (A : Matrix (Fin r) (Fin r) ℝ)
    (F0 : Fin r → ℝ) (P0 : Matrix (Fin r) (Fin r) ℝ) (t : ℕ)
    (hmiss : ∀ i, X t i = none) :
    (kfSeq X C Q R A F0 P0 (t + 1)).loglik
      = (kfSeq X C Q R A F0 P0 t).loglik
        - (n : ℝ) / 2 * Real.log (2 * Real.pi) := by
  show (kfSeq X C Q R A F0 P0 t).loglik
      + llInc C R (missIdx (X t)) (X t) (kfSeq X C Q R A F0 P0 t).fp
          (kfSeq X C Q R A F0 P0 t).Pp = _
  rw [missIdx_eq_nil hmiss, llInc_nil]
  ring

theorem c1_missing_row_loglik_witness :
    (∀ i : Fin 1, XallMiss 1 0 i = none) ∧
    (kfSeq (XallMiss 1) (1 : Matrix (Fin 1) (Fin 1) ℝ) 1 1 1 0 1 1).loglik
      = (kfSeq (XallMiss 1) (1 : Matrix (Fin 1) (Fin 1) ℝ) 1 1 1 0 1 0).loglik
        - ((1 : ℕ) : ℝ) / 2 * Real.log (2 * Real.pi) :=
  ⟨fun _ => rfl,
    c1_missing_row_loglik_amended (XallMiss 1) 1 1 1 1 0 1 0 fun _ => rfl⟩

/-!
Claim C4.
-/

/-- C4 amended: the predicted mean history returned by `KalmanFilter` has
`T+1` rows and the predicted covariance history has `T+1` slices (their
index type is `Fin (T+1)`), but the final (index `T`) slot holds the zero
vector/matrix left by the `fill::zeros` allocation: the one-step-ahead
forecast computed in the loop's last iteration is never stored there. -/
theorem c4_final_predicted_slot_amended {n r : ℕ} (T : ℕ)
    (X : ℕ → Fin n → Option ℝ) (C : Matrix (Fin n) (Fin r) ℝ)
    (Q : Matrix (Fin r) (Fin r) ℝ) (R : Matrix (Fin n) (Fin n) ℝ)
    (A : Matrix (Fin r) (Fin r) ℝ) (F0 : Fin r → ℝ)
    (P0 : Matrix (Fin r) (Fin r) ℝ) :
    (KalmanFilter T X C Q R A F0 P0).P ⟨T, Nat.lt_succ_self T⟩ = 0
    ∧ (KalmanFilter T X C Q R A F0 P0).Pp ⟨T, Nat.lt_succ_self T⟩ = 0 := by
  constructor
  · show PThist T X C Q R A F0 P0 T = 0
    rw [PThist, if_neg (lt_irrefl T)]
  · show PpThist T X C Q R A F0 P0 T = 0
    rw [PpThist, if_neg (lt_irrefl T)]

/-- C4 counterexample: at a concrete input the final slot of the predicted
mean history is the zero vector, not the one-step-ahead forecast
`A * ff_close(T-1)` claimed for it (which is `1/2` here). -/
theorem c4_final_predicted_slot_counterexample :
    (KalmanFilter 1 (XallOne 1) (1 : Matrix (Fin 1) (Fin 1) ℝ) 1 1 1 0 1).P
        ⟨1, Nat.lt_succ_self 1⟩
      ≠ (1 : Matrix (Fin 1) (Fin 1) ℝ).mulVec
          ((KalmanFilter 1 (XallOne 1) (1 : Matrix (Fin 1) (Fin 1) ℝ) 1 1 1 0 1).F
            ⟨0, Nat.one_pos⟩) := by
  have hF : ((KalmanFilter 1 (XallOne 1) (1 : Matrix (Fin 1) (Fin 1) ℝ)
      1 1 1 0 1).F ⟨0, Nat.one_pos⟩) 0 = 1 / 2 := by
    show ffUpd (1 : Matrix (Fin 1) (Fin 1) ℝ) 1 (missIdx (XallOne 1 0))
        (XallOne 1 0) 0 1 0 = 1 / 2
    rw [ffUpd_obs (x := XallOne 1 0) fun _ => rfl]
    simp [Matrix.mulVec, Matrix.dotProduct, Fin.sum_univ_one, inv_fin_one,
      XallOne, Matrix.one_apply, Matrix.add_apply]
    norm_num
  have hP : (KalmanFilter 1 (XallOne 1) (1 : Matrix (Fin 1) (Fin 1) ℝ)
      1 1 1 0 1).P ⟨1, Nat.lt_succ_self 1⟩ = 0 := by
    show PThist 1 (XallOne 1) 1 1 1 1 0 1 1 = 0
    rw [PThist, if_neg (lt_irrefl 1)]
  intro h
  have h0 := congrFun h 0
  rw [hP, Matrix.one_mulVec] at h0
  rw [hF] at h0
  norm_num at h0

/-!
Claim C7.
-/

/-- C7: the smoothed outputs of `KalmanSmoother` satisfy the
Rauch-Tung-Striebel equations: smoothed mean/covariance at `T-1` equal the
filtered mean/covariance at `T-1`, and for every `t < T-1`,
`Fs_t = FT_t + J_t * (Fs_close(t+1) - PT_close(t+1))` and
`Ps_t = PfT_t + J_t * (Ps_close(t+1) - PpT_close(t+1)) * J_t.t()` with
`J_t = PfT_t * A.t() * PpT_close(t+1).i()`. -/
theorem c7_rts_equations {n r : ℕ} (T : ℕ) (A : Matrix (Fin r) (Fin r) ℝ)
    (C : Matrix (Fin n) (Fin r) ℝ) (R : Matrix (Fin n) (Fin n) ℝ)
    (FT PT : ℕ → Fin r → ℝ) (PfT PpT : ℕ → Matrix (Fin r) (Fin r) ℝ)
    (hT : 0 < T) :
    ((KalmanSmoother T A C R FT PT PfT PpT).Fs ⟨T - 1, by omega⟩ = FT (T - 1)
      ∧ (KalmanSmoother T A C R FT PT PfT PpT).Ps ⟨T - 1, by omega⟩
          = PfT (T - 1))
    ∧ ∀ t : ℕ, ∀ ht : t < T - 1,
        (KalmanSmoother T A C R FT PT PfT PpT).Fs ⟨t, by omega⟩
          = FT t + (PfT t * Aᵀ * (PpT (t + 1))⁻¹).mulVec
              ((KalmanSmoother T A C R FT PT PfT PpT).Fs ⟨t + 1, by omega⟩
                - PT (t + 1))
        ∧ (KalmanSmoother T A C R FT PT PfT PpT).Ps ⟨t, by omega⟩
          = PfT t + PfT t * Aᵀ * (PpT (t + 1))⁻¹ *
              ((KalmanSmoother T A C R FT PT PfT PpT).Ps ⟨t + 1, by omega⟩
                - PpT (t + 1)) * (PfT t * Aᵀ * (PpT (t + 1))⁻¹)ᵀ := by
  refine ⟨⟨?_, ?_⟩, ?_⟩
  · show FsAux T A FT PT PfT PpT (T - 1 - (T - 1)) = FT (T - 1)
    rw [Nat.sub_self]
    rfl
  · show PsAux T A PfT PpT (T - 1 - (T - 1)) = PfT (T - 1)
    rw [Nat.sub_self]
    rfl
  · intro t ht
    have hd : T - 1 - t = (T - 2 - t) + 1 := by omega
    have h1 : T - 2 - (T - 2 - t) = t := by omega
    have h2 : T - 1 - (T - 2 - t) = t + 1 := by omega
    have h3 : T - 1 - (t + 1) = T - 2 - t := by omega
    constructor
    · show FsAux T A FT PT PfT PpT (T - 1 - t) = _
      rw [hd]
      show FT (T - 2 - (T - 2 - t)) +
          (Jhist T A PfT PpT (T - 2 - (T - 2 - t))).mulVec
            (FsAux T A FT PT PfT PpT (T - 2 - t) - PT (T - 1 - (T - 2 - t))) = _
      rw [h1, h2, Jhist, if_pos ht]
      show _ = FT t + (PfT t * Aᵀ * (PpT (t + 1))⁻¹).mulVec
          (FsAux T A FT PT PfT PpT (T - 1 - (t + 1)) - PT (t + 1))
      rw [h3]
    · show PsAux T A PfT PpT (T - 1 - t) = _
      rw [hd]
      show PfT (T - 2 - (T - 2 - t)) +
          Jhist T A PfT PpT (T - 2 - (T - 2 - t)) *
            (PsAux T A PfT PpT (T - 2 - t) - PpT (T - 1 - (T - 2 - t))) *
            (Jhist T A PfT PpT (T - 2 - (T - 2 - t)))ᵀ = _
      rw [h1, h2, Jhist, if_pos ht]
      show _ = PfT t + PfT t * Aᵀ * (PpT (t + 1))⁻¹ *
          (PsAux T A PfT PpT (T - 1 - (t + 1)) - PpT (t + 1)) *
          (PfT t * Aᵀ * (PpT (t + 1))⁻¹)ᵀ
      rw [h3]

theorem c7_rts_equations_witness :
    (0 < 2 ∧ 0 < 2 - 1) ∧
    ((KalmanSmoother 2 (1 : Matrix (Fin 1) (Fin 1) ℝ)
          (1 : Matrix (Fin 1) (Fin 1) ℝ) 1 (fun _ _ => 1) (fun _ _ => 1)
          (fun _ => 1) fun _ => 1).Fs ⟨0, by omega⟩
        = (fun _ _ => (1 : ℝ)) 0 + ((fun _ => (1 : Matrix (Fin 1) (Fin 1) ℝ)) 0
              * (1 : Matrix (Fin 1) (Fin 1) ℝ)ᵀ *
              ((fun _ => (1 : Matrix (Fin 1) (Fin 1) ℝ)) 1)⁻¹).mulVec
            ((KalmanSmoother 2 (1 : Matrix (Fin 1) (Fin 1) ℝ)
                (1 : Matrix (Fin 1) (Fin 1) ℝ) 1 (fun _ _ => 1) (fun _ _ => 1)
                (fun _ => 1) fun _ => 1).Fs ⟨1, by omega⟩
              - (fun _ _ => (1 : ℝ)) 1)
      ∧ (KalmanSmoother 2 (1 : Matrix (Fin 1) (Fin 1) ℝ)
            (1 : Matrix (Fin 1) (Fin 1) ℝ) 1 (fun _ _ => 1) (fun _ _ => 1)
            (fun _ => 1) fun _ => 1).Ps ⟨0, by omega⟩
        = (fun _ => (1 : Matrix (Fin 1) (Fin 1) ℝ)) 0 +
            (fun _ => (1 : Matrix (Fin 1) (Fin 1) ℝ)) 0 * (1 : Matrix (Fin 1) (Fin 1) ℝ)ᵀ *
              ((fun _ => (1 : Matrix (Fin 1) (Fin 1) ℝ)) 1)⁻¹ *
              ((KalmanSmoother 2 (1 : Matrix (Fin 1) (Fin 1) ℝ)
                  (1 : Matrix (Fin 1) (Fin 1) ℝ) 1 (fun _ _ => 1) (fun _ _ => 1)
                  (fun _ => 1) fun _ => 1).Ps ⟨1, by omega⟩
                - (fun _ => (1 : Matrix (Fin 1) (Fin 1) ℝ)) 1) *
              ((fun _ => (1 : Matrix (Fin 1) (Fin 1) ℝ)) 0 *
                (1 : Matrix (Fin 1) (Fin 1) ℝ)ᵀ *
                ((fun _ => (1 : Matrix (Fin 1) (Fin 1) ℝ)) 1)⁻¹)ᵀ) :=
  ⟨⟨by norm_num, by norm_num⟩,
    (c7_rts_equations 2 (1 : Matrix (Fin 1) (Fin 1) ℝ)
        (1 : Matrix (Fin 1) (Fin 1) ℝ) 1 (fun _ _ => 1) (fun _ _ => 1)
        (fun _ => 1) (fun _ => 1) (by norm_num)).2 0 (by norm_num)⟩

/-!
Claim C10.
-/

/-- C10: for `T ≥ 3` the lag-one cross-covariance history returned by
`KalmanSmoother` (and by `KalmanFilterSmoother`) holds the zero matrix at
time indices `0` and `1`: the backward lag-one loop writes only slices `T-1`
and `T-2` down to `2`, so the zero-filled slices `0` and `1` are returned
(and the `t = 1` term of the E-step's `beta` accumulator therefore adds a
zero lag-one matrix). -/
theorem c10_lag_one_zero_slices {n r : ℕ} (T : ℕ)
    (A : Matrix (Fin r) (Fin r) ℝ) (C : Matrix (Fin n) (Fin r) ℝ)
    (R : Matrix (Fin n) (Fin n) ℝ) (FT PT : ℕ → Fin r → ℝ)
    (PfT PpT : ℕ → Matrix (Fin r) (Fin r) ℝ) (X : ℕ → Fin n → Option ℝ)
    (Q : Matrix (Fin r) (Fin r) ℝ) (F0 : Fin r → ℝ)
    (P0 : Matrix (Fin r) (Fin r) ℝ) (hT : 3 ≤ T) :
    ((KalmanSmoother T A C R FT PT PfT PpT).PsTm ⟨0, by omega⟩ = 0
      ∧ (KalmanSmoother T A C R FT PT PfT PpT).PsTm ⟨1, by omega⟩ = 0)
    ∧ ((KalmanFilterSmoother T X C Q R A F0 P0).PsTm ⟨0, by omega⟩ = 0
      ∧ (KalmanFilterSmoother T X C Q R A F0 P0).PsTm ⟨1, by omega⟩ = 0) := by
  refine ⟨⟨?_, ?_⟩, ?_, ?_⟩
  · show PsTmSel _ _ _ _ _ (0 : ℕ) = 0
    rw [PsTmSel, if_neg (by omega)]
  · show PsTmSel _ _ _ _ _ (1 : ℕ) = 0
    rw [PsTmSel, if_neg (by omega)]
  · show PsTmSel _ _ _ _ _ (0 : ℕ) = 0
    rw [PsTmSel, if_neg (by omega)]
  · show PsTmSel _ _ _ _ _ (1 : ℕ) = 0
    rw [PsTmSel, if_neg (by omega)]

theorem c10_lag_one_zero_slices_witness :
    3 ≤ 3 ∧
    ((KalmanSmoother 3 (1 : Matrix (Fin 1) (Fin 1) ℝ)
          (1 : Matrix (Fin 1) (Fin 1) ℝ) 1 (fun _ _ => 1) (fun _ _ => 1)
          (fun _ => 1) fun _ => 1).PsTm ⟨0, by omega⟩ = 0
      ∧ (KalmanSmoother 3 (1 : Matrix (Fin 1) (Fin 1) ℝ)
          (1 : Matrix (Fin 1) (Fin 1) ℝ) 1 (fun _ _ => 1) (fun _ _ => 1)
          (fun _ => 1) fun _ => 1).PsTm ⟨1, by omega⟩ = 0)
    ∧ ((KalmanFilterSmoother 3 (XallOne 1) (1 : Matrix (Fin 1) (Fin 1) ℝ)
          1 1 1 0 1).PsTm ⟨0, by omega⟩ = 0
      ∧ (KalmanFilterSmoother 3 (XallOne 1) (1 : Matrix (Fin 1) (Fin 1) ℝ)
          1 1 1 0 1).PsTm ⟨1, by omega⟩ = 0) :=
  ⟨by norm_num,
    c10_lag_one_zero_slices 3 (1 : Matrix (Fin 1) (Fin 1) ℝ)
      (1 : Matrix (Fin 1) (Fin 1) ℝ) 1 (fun _ _ => 1) (fun _ _ => 1)
      (fun _ => 1) (fun _ => 1) (XallOne 1) 1 0 1 (by norm_num)⟩

/-!
Claim C8.
-/

/-- C8: the `Estep` outputs satisfy
`gamma1 = gamma - (Fs_close(T-1) outer Fs_close(T-1) + Ps_close(T-1))` and
`gamma2 = gamma - (Fs_0 outer Fs_0 + Ps_0)`: `gamma1` is `gamma` with the
last time step's term removed and `gamma2` is `gamma` with the first time
step's term removed. -/
theorem c8_leave_one_out {n r : ℕ} (T : ℕ) (X : ℕ → Fin n → Option ℝ)
    (C : Matrix (Fin n) (Fin r) ℝ) (Q : Matrix (Fin r) (Fin r) ℝ)
    (R : Matrix (Fin n) (Fin n) ℝ) (A : Matrix (Fin r) (Fin r) ℝ)
    (F0 : Fin r → ℝ) (P0 : Matrix (Fin r) (Fin r) ℝ) (hT : 0 < T) :
    (Estep T X C Q R A F0 P0).gamma1
      = (Estep T X C Q R A F0 P0).gamma
        - (outerProd ((KalmanFilterSmoother T X C Q R A F0 P0).Fs ⟨T - 1, by omega⟩)
             ((KalmanFilterSmoother T X C Q R A F0 P0).Fs ⟨T - 1, by omega⟩)
           + (KalmanFilterSmoother T X C Q R A F0 P0).Ps ⟨T - 1, by omega⟩)
    ∧ (Estep T X C Q R A F0 P0).gamma2
      = (Estep T X C Q R A F0 P0).gamma
        - (outerProd ((KalmanFilterSmoother T X C Q R A F0 P0).Fs ⟨0, hT⟩)
             ((KalmanFilterSmoother T X C Q R A F0 P0).Fs ⟨0, hT⟩)
           + (KalmanFilterSmoother T X C Q R A F0 P0).Ps ⟨0, hT⟩) := by
  unfold Estep
  simp only [dif_pos hT]
  exact ⟨sub_sub _ _ _, sub_sub _ _ _⟩

theorem c8_leave_one_out_witness :
    0 < 2 ∧
    ((Estep 2 (XallOne 1) (1 : Matrix (Fin 1) (Fin 1) ℝ) 1 1 1 0 1).gamma1
      = (Estep 2 (XallOne 1) (1 : Matrix (Fin 1) (Fin 1) ℝ) 1 1 1 0 1).gamma
        - (outerProd ((KalmanFilterSmoother 2 (XallOne 1)
              (1 : Matrix (Fin 1) (Fin 1) ℝ) 1 1 1 0 1).Fs ⟨2 - 1, by omega⟩)
             ((KalmanFilterSmoother 2 (XallOne 1)
              (1 : Matrix (Fin 1) (Fin 1) ℝ) 1 1 1 0 1).Fs ⟨2 - 1, by omega⟩)
           + (KalmanFilterSmoother 2 (XallOne 1)
              (1 : Matrix (Fin 1) (Fin 1) ℝ) 1 1 1 0 1).Ps ⟨2 - 1, by omega⟩)
    ∧ (Estep 2 (XallOne 1) (1 : Matrix (Fin 1) (Fin 1) ℝ) 1 1 1 0 1).gamma2
      = (Estep 2 (XallOne 1) (1 : Matrix (Fin 1) (Fin 1) ℝ) 1 1 1 0 1).gamma
        - (outerProd ((KalmanFilterSmoother 2 (XallOne 1)
              (1 : Matrix (Fin 1) (Fin 1) ℝ) 1 1 1 0 1).Fs ⟨0, by norm_num⟩)
             ((KalmanFilterSmoother 2 (XallOne 1)
              (1 : Matrix (Fin 1) (Fin 1) ℝ) 1 1 1 0 1).Fs ⟨0, by norm_num⟩)
           + (KalmanFilterSmoother 2 (XallOne 1)
              (1 : Matrix (Fin 1) (Fin 1) ℝ) 1 1 1 0 1).Ps ⟨0, by norm_num⟩)) :=
  ⟨by norm_num,
    c8_leave_one_out 2 (XallOne 1) (1 : Matrix (Fin 1) (Fin 1) ℝ) 1 1 1 0 1
      (by norm_num)⟩

/-!
Claim C5.
-/

/-- C5 amended: at each time step of the filtering loop the log-likelihood
increment is added if and only if the determinant guard `det(S) > 0` holds,
and then the increment equals
`-(1/2) * (n * log(2*pi) - log(det(S)) + xe.t() * S * xe)`, where `S` is the
(inverted) innovation covariance of the restricted channels — the quadratic
form uses `S` itself (the inverted matrix), not `S⁻¹` — and `n` is the full
channel count. -/
theorem c5_loglik_increment_amended {n r : ℕ} (X : ℕ → Fin n → Option ℝ)
    (C : Matrix (Fin n) (Fin r) ℝ) (Q : Matrix (Fin r) (Fin r) ℝ)
    (R : Matrix (Fin n) (Fin n) ℝ) (A : Matrix (Fin r) (Fin r) ℝ)
    (F0 : Fin r → ℝ) (P0 : Matrix (Fin r) (Fin r) ℝ) (t : ℕ) :
    (kfSeq X C Q R A F0 P0 (t + 1)).loglik
      = (kfSeq X C Q R A F0 P0 t).loglik
        + (if 0 < (Smat C R (missIdx (X t)) (kfSeq X C Q R A F0 P0 t).Pp).det then
            -(1 / 2) * ((n : ℝ) * Real.log (2 * Real.pi)
              - Real.log (Smat C R (missIdx (X t)) (kfSeq X C Q R A F0 P0 t).Pp).det
              + xeVec C (X t) (missIdx (X t)) (kfSeq X C Q R A F0 P0 t).fp ⬝ᵥ
                  (Smat C R (missIdx (X t)) (kfSeq X C Q R A F0 P0 t).Pp).mulVec
                    (xeVec C (X t) (missIdx (X t)) (kfSeq X C Q R A F0 P0 t).fp))
          else 0) :=
  rfl

/-- C5 counterexample: the claim's literal formula applies one more
inversion in the quadratic form (`xe.t() * S.i() * xe` with `S` the already
inverted innovation covariance); at a concrete fully observed step the code's
log-likelihood differs from that formula's value. -/
theorem c5_loglik_increment_counterexample :
    (KalmanFilter 1 (XallOne 1) (1 : Matrix (Fin 1) (Fin 1) ℝ) 1 1 1 0 1).loglik
      ≠ (if 0 < (Smat (1 : Matrix (Fin 1) (Fin 1) ℝ) 1 (missIdx (XallOne 1 0))
            1).det then
          -(1 / 2) * ((1 : ℝ) * Real.log (2 * Real.pi)
            - Real.log (Smat (1 : Matrix (Fin 1) (Fin 1) ℝ) 1
                (missIdx (XallOne 1 0)) 1).det
            + xeVec (1 : Matrix (Fin 1) (Fin 1) ℝ) (XallOne 1 0)
                (missIdx (XallOne 1 0)) 0 ⬝ᵥ
                ((Smat (1 : Matrix (Fin 1) (Fin 1) ℝ) 1 (missIdx (XallOne 1 0))
                    1)⁻¹).mulVec
                  (xeVec (1 : Matrix (Fin 1) (Fin 1) ℝ) (XallOne 1 0)
                    (missIdx (XallOne 1 0)) 0))
        else 0) := by
  have hobs : ∀ i : Fin 1, ((XallOne 1 0) i).isSome = true := fun _ => rfl
  have hSig : ((1 : Matrix (Fin 1) (Fin 1) ℝ) * 1 * (1 : Matrix (Fin 1) (Fin 1) ℝ)ᵀ
      + 1) = (1 : Matrix (Fin 1) (Fin 1) ℝ) + 1 := by
    rw [Matrix.transpose_one, Matrix.mul_one, Matrix.mul_one]
  have hdet : ((((1 : Matrix (Fin 1) (Fin 1) ℝ) * 1 * (1 : Matrix (Fin 1) (Fin 1) ℝ)ᵀ
      + 1))⁻¹).det = 2⁻¹ := by
    rw [hSig, inv_fin_one, Matrix.det_fin_one]
    norm_num [Matrix.add_apply, Matrix.one_apply]
  have hw : ((fun i => ((XallOne 1 0) i).getD 0)
      - (1 : Matrix (Fin 1) (Fin 1) ℝ).mulVec 0) = fun _ : Fin 1 => (1 : ℝ) := by
    funext i
    simp [XallOne, Matrix.mulVec_zero]
  have hq1 : ((fun i => ((XallOne 1 0) i).getD 0)
        - (1 : Matrix (Fin 1) (Fin 1) ℝ).mulVec 0) ⬝ᵥ
      ((((1 : Matrix (Fin 1) (Fin 1) ℝ) * 1 * (1 : Matrix (Fin 1) (Fin 1) ℝ)ᵀ
          + 1))⁻¹).mulVec
        ((fun i => ((XallOne 1 0) i).getD 0)
          - (1 : Matrix (Fin 1) (Fin 1) ℝ).mulVec 0) = 2⁻¹ := by
    rw [hw, hSig, inv_fin_one]
    simp [Matrix.dotProduct, Matrix.mulVec, Fin.sum_univ_one,
      Matrix.add_apply, Matrix.one_apply]
    norm_num
  have hq2 : ((fun i => ((XallOne 1 0) i).getD 0)
        - (1 : Matrix (Fin 1) (Fin 1) ℝ).mulVec 0) ⬝ᵥ
      (((((1 : Matrix (Fin 1) (Fin 1) ℝ) * 1 * (1 : Matrix (Fin 1) (Fin 1) ℝ)ᵀ
          + 1))⁻¹)⁻¹).mulVec
        ((fun i => ((XallOne 1 0) i).getD 0)
          - (1 : Matrix (Fin 1) (Fin 1) ℝ).mulVec 0) = 2 := by
    rw [hw, hSig, inv_fin_one, inv_fin_one]
    simp [Matrix.dotProduct, Matrix.mulVec, Fin.sum_univ_one,
      Matrix.add_apply, Matrix.one_apply]
    norm_num
  have hL : (KalmanFilter 1 (XallOne 1) (1 : Matrix (Fin 1) (Fin 1) ℝ)
      1 1 1 0 1).loglik
      = -(1 / 2) * ((1 : ℝ) * Real.log (2 * Real.pi) - Real.log 2⁻¹ + 2⁻¹) := by
    show (0 : ℝ) + llInc (1 : Matrix (Fin 1) (Fin 1) ℝ) 1
        (missIdx (XallOne 1 0)) (XallOne 1 0) 0 1 = _
    rw [llInc_obs hobs, if_pos (by rw [hdet]; norm_num), hdet, hq1, zero_add]
    norm_num
  have hR : (if 0 < (Smat (1 : Matrix (Fin 1) (Fin 1) ℝ) 1 (missIdx (XallOne 1 0))
        1).det then
        -(1 / 2) * ((1 : ℝ) * Real.log (2 * Real.pi)
          - Real.log (Smat (1 : Matrix (Fin 1) (Fin 1) ℝ) 1
              (missIdx (XallOne 1 0)) 1).det
          + xeVec (1 : Matrix (Fin 1) (Fin 1) ℝ) (XallOne 1 0)
              (missIdx (XallOne 1 0)) 0 ⬝ᵥ
              ((Smat (1 : Matrix (Fin 1) (Fin 1) ℝ) 1 (missIdx (XallOne 1 0))
                  1)⁻¹).mulVec
                (xeVec (1 : Matrix (Fin 1) (Fin 1) ℝ) (XallOne 1 0)
                  (missIdx (XallOne 1 0)) 0))
      else 0)
      = -(1 / 2) * ((1 : ℝ) * Real.log (2 * Real.pi) - Real.log 2⁻¹ + 2) := by
    rw [Smat_det_obs hobs, Smat_quadInv_obs hobs, hdet, hq2,
      if_pos (by norm_num)]
  rw [hL, hR]
  intro hc
  have := mul_left_cancel₀ (by norm_num : -(1 / 2 : ℝ) ≠ 0) hc
  linarith

/-!
Claim C2.
-/

/-- C2 amended: `KalmanFilterSmoother` returns exactly the smoothed mean
history, smoothed covariance history, lag-one cross-covariance history and
log-likelihood obtained by running `KalmanFilter` and then `KalmanSmoother`
on the full `A, C, R` and the filter's filtered and predicted histories,
PROVIDED every channel is observed at the last time step `T-1`.  Without
that proviso the restricted `C`/`R` left in those variables by the last
filtering iteration are smaller than the fixed `n x n` (resp. `rp x n`)
cube slices `L.slice(i)` / `KS.slice(i)` of the lag-one tail, the slice
assignment throws `std::logic_error`, and the call returns nothing at
all. -/
theorem c2_fused_equals_composed_amended {n r : ℕ} (T : ℕ)
    (X : ℕ → Fin n → Option ℝ) (C : Matrix (Fin n) (Fin r) ℝ)
    (Q : Matrix (Fin r) (Fin r) ℝ) (R : Matrix (Fin n) (Fin n) ℝ)
    (A : Matrix (Fin r) (Fin r) ℝ) (F0 : Fin r → ℝ)
    (P0 : Matrix (Fin r) (Fin r) ℝ)
    (hlast : ∀ i, (X (T - 1) i).isSome = true) :
    KalmanFilterSmootherChecked T X C Q R A F0 P0
      = some
        { Fs := (KalmanSmoother T A C R (FThist X C Q R A F0 P0)
            (PThist T X C Q R A F0 P0) (PfThist X C Q R A F0 P0)
            (PpThist T X C Q R A F0 P0)).Fs
          Ps := (KalmanSmoother T A C R (FThist X C Q R A F0 P0)
            (PThist T X C Q R A F0 P0) (PfThist X C Q R A F0 P0)
            (PpThist T X C Q R A F0 P0)).Ps
          PsTm := (KalmanSmoother T A C R (FThist X C Q R A F0 P0)
            (PThist T X C Q R A F0 P0) (PfThist X C Q R A F0 P0)
            (PpThist T X C Q R A F0 P0)).PsTm
          loglik := (KalmanFilter T X C Q R A F0 P0).loglik } := by
  have hn : (missIdx (X (T - 1))).length = n := by
    rw [missIdx_eq_finRange hlast, List.length_finRange]
  rw [KalmanFilterSmootherChecked, if_pos hn]
  congr 1
  rw [KalmanFilterSmoother, lagSeedSub_obs hlast]
  rfl

theorem c2_fused_equals_composed_witness :
    (∀ i : Fin 1, (XallOne 1 (2 - 1) i).isSome = true) ∧
    KalmanFilterSmootherChecked 2 (XallOne 1) (1 : Matrix (Fin 1) (Fin 1) ℝ)
        1 1 1 0 1
      = some
        { Fs := (KalmanSmoother 2 (1 : Matrix (Fin 1) (Fin 1) ℝ)
            (1 : Matrix (Fin 1) (Fin 1) ℝ) 1
            (FThist (XallOne 1) (1 : Matrix (Fin 1) (Fin 1) ℝ) 1 1 1 0 1)
            (PThist 2 (XallOne 1) (1 : Matrix (Fin 1) (Fin 1) ℝ) 1 1 1 0 1)
            (PfThist (XallOne 1) (1 : Matrix (Fin 1) (Fin 1) ℝ) 1 1 1 0 1)
            (PpThist 2 (XallOne 1) (1 : Matrix (Fin 1) (Fin 1) ℝ) 1 1 1 0 1)).Fs
          Ps := (KalmanSmoother 2 (1 : Matrix (Fin 1) (Fin 1) ℝ)
            (1 : Matrix (Fin 1) (Fin 1) ℝ) 1
            (FThist (XallOne 1) (1 : Matrix (Fin 1) (Fin 1) ℝ) 1 1 1 0 1)
            (PThist 2 (XallOne 1) (1 : Matrix (Fin 1) (Fin 1) ℝ) 1 1 1 0 1)
            (PfThist (XallOne 1) (1 : Matrix (Fin 1) (Fin 1) ℝ) 1 1 1 0 1)
            (PpThist 2 (XallOne 1) (1 : Matrix (Fin 1) (Fin 1) ℝ) 1 1 1 0 1)).Ps
          PsTm := (KalmanSmoother 2 (1 : Matrix (Fin 1) (Fin 1) ℝ)
            (1 : Matrix (Fin 1) (Fin 1) ℝ) 1
            (FThist (XallOne 1) (1 : Matrix (Fin 1) (Fin 1) ℝ) 1 1 1 0 1)
            (PThist 2 (XallOne 1) (1 : Matrix (Fin 1) (Fin 1) ℝ) 1 1 1 0 1)
            (PfThist (XallOne 1) (1 : Matrix (Fin 1) (Fin 1) ℝ) 1 1 1 0 1)
            (PpThist 2 (XallOne 1) (1 : Matrix (Fin 1) (Fin 1) ℝ) 1 1 1 0 1)).PsTm
          loglik := (KalmanFilter 2 (XallOne 1) (1 : Matrix (Fin 1) (Fin 1) ℝ)
            1 1 1 0 1).loglik } :=
  ⟨fun _ => rfl,
    c2_fused_equals_composed_amended 2 (XallOne 1)
      (1 : Matrix (Fin 1) (Fin 1) ℝ) 1 1 1 0 1 fun _ => rfl⟩

/-- C2 counterexample: when the last row of `X` has missing entries the
fused `KalmanFilterSmoother` does not return the outputs of `KalmanFilter`
followed by `KalmanSmoother` on the full `C`/`R` — it does not return at
all: the lag-one tail's fixed-size cube-slice assignments receive the
smaller restricted matrices and throw `std::logic_error` (`none` in the
model), while the composed pipeline is well-defined. -/
theorem c2_fused_equals_composed_counterexample :
    KalmanFilterSmootherChecked 2 (XoneThenMiss 1)
        (1 : Matrix (Fin 1) (Fin 1) ℝ) 1 1 1 0 1
      ≠ some
        { Fs := (KalmanSmoother 2 (1 : Matrix (Fin 1) (Fin 1) ℝ)
            (1 : Matrix (Fin 1) (Fin 1) ℝ) 1
            (FThist (XoneThenMiss 1) (1 : Matrix (Fin 1) (Fin 1) ℝ) 1 1 1 0 1)
            (PThist 2 (XoneThenMiss 1) (1 : Matrix (Fin 1) (Fin 1) ℝ) 1 1 1 0 1)
            (PfThist (XoneThenMiss 1) (1 : Matrix (Fin 1) (Fin 1) ℝ) 1 1 1 0 1)
            (PpThist 2 (XoneThenMiss 1) (1 : Matrix (Fin 1) (Fin 1) ℝ) 1 1 1 0 1)).Fs
          Ps := (KalmanSmoother 2 (1 : Matrix (Fin 1) (Fin 1) ℝ)
            (1 : Matrix (Fin 1) (Fin 1) ℝ) 1
            (FThist (XoneThenMiss 1) (1 : Matrix (Fin 1) (Fin 1) ℝ) 1 1 1 0 1)
            (PThist 2 (XoneThenMiss 1) (1 : Matrix (Fin 1) (Fin 1) ℝ) 1 1 1 0 1)
            (PfThist (XoneThenMiss 1) (1 : Matrix (Fin 1) (Fin 1) ℝ) 1 1 1 0 1)
            (PpThist 2 (XoneThenMiss 1) (1 : Matrix (Fin 1) (Fin 1) ℝ) 1 1 1 0 1)).Ps
          PsTm := (KalmanSmoother 2 (1 : Matrix (Fin 1) (Fin 1) ℝ)
            (1 : Matrix (Fin 1) (Fin 1) ℝ) 1
            (FThist (XoneThenMiss 1) (1 : Matrix (Fin 1) (Fin 1) ℝ) 1 1 1 0 1)
            (PThist 2 (XoneThenMiss 1) (1 : Matrix (Fin 1) (Fin 1) ℝ) 1 1 1 0 1)
            (PfThist (XoneThenMiss 1) (1 : Matrix (Fin 1) (Fin 1) ℝ) 1 1 1 0 1)
            (PpThist 2 (XoneThenMiss 1) (1 : Matrix (Fin 1) (Fin 1) ℝ) 1 1 1 0 1)).PsTm
          loglik := (KalmanFilter 2 (XoneThenMiss 1)
            (1 : Matrix (Fin 1) (Fin 1) ℝ) 1 1 1 0 1).loglik } := by
  have hmiss1 : ∀ i : Fin 1, XoneThenMiss 1 (2 - 1) i = none := fun _ => rfl
  have hne : ¬ ((missIdx (XoneThenMiss 1 (2 - 1))).length = 1) := by
    rw [missIdx_eq_nil (x := XoneThenMiss 1 (2 - 1)) hmiss1]
    norm_num
  have hnone : KalmanFilterSmootherChecked 2 (XoneThenMiss 1)
      (1 : Matrix (Fin 1) (Fin 1) ℝ) 1 1 1 0 1 = none := by
    rw [KalmanFilterSmootherChecked, if_neg hne]
  rw [hnone]
  exact fun h => Option.noConfusion h

/-!
Claim C3.
-/

/-- C3 amended: for symmetric `P0`, `Q`, `R`, every predicted covariance,
filtered covariance and smoothed covariance returned by the filter and the
smoother (run on the filter's histories) is symmetric in exact arithmetic.
The lag-one cross-covariance slices are NOT covered: they are cross-moments
between consecutive time steps and need not be symmetric. -/
theorem c3_covariance_symmetry_amended {n r : ℕ} (T : ℕ)
    (X : ℕ → Fin n → Option ℝ) (C : Matrix (Fin n) (Fin r) ℝ)
    (Q : Matrix (Fin r) (Fin r) ℝ) (R : Matrix (Fin n) (Fin n) ℝ)
    (A : Matrix (Fin r) (Fin r) ℝ) (F0 : Fin r → ℝ)
    (P0 : Matrix (Fin r) (Fin r) ℝ)
    (hP0 : P0ᵀ = P0) (hQ : Qᵀ = Q) (hR : Rᵀ = R) :
    (∀ t : Fin (T + 1), ((KalmanFilter T X C Q R A F0 P0).Pp t)ᵀ
        = (KalmanFilter T X C Q R A F0 P0).Pp t)
    ∧ (∀ t : Fin T, ((KalmanFilter T X C Q R A F0 P0).Pf t)ᵀ
        = (KalmanFilter T X C Q R A F0 P0).Pf t)
    ∧ (∀ t : Fin T, ((KalmanSmoother T A C R (FThist X C Q R A F0 P0)
          (PThist T X C Q R A F0 P0) (PfThist X C Q R A F0 P0)
          (PpThist T X C Q R A F0 P0)).Ps t)ᵀ
        = (KalmanSmoother T A C R (FThist X C Q R A F0 P0)
          (PThist T X C Q R A F0 P0) (PfThist X C Q R A F0 P0)
          (PpThist T X C Q R A F0 P0)).Ps t) := by
  have hPph : ∀ t : ℕ, (PpThist T X C Q R A F0 P0 t)ᵀ
      = PpThist T X C Q R A F0 P0 t := by
    intro t
    rw [PpThist]
    split
    · exact kfSeq_Pp_symm X C Q R A F0 P0 hP0 hQ hR t
    · exact Matrix.transpose_zero
  have hPfh : ∀ t : ℕ, (PfThist X C Q R A F0 P0 t)ᵀ
      = PfThist X C Q R A F0 P0 t := by
    intro t
    exact PfUpd_transpose C R _ _ hR (kfSeq_Pp_symm X C Q R A F0 P0 hP0 hQ hR t)
  refine ⟨fun t => hPph t.val, fun t => hPfh t.val, fun t => ?_⟩
  show (PsAux T A (PfThist X C Q R A F0 P0) (PpThist T X C Q R A F0 P0)
      (T - 1 - t.val))ᵀ = _
  exact PsAux_symm T A _ _ hPfh hPph (T - 1 - t.val)

theorem c3_covariance_symmetry_witness :
    ((1 : Matrix (Fin 1) (Fin 1) ℝ)ᵀ = 1 ∧ (1 : Matrix (Fin 1) (Fin 1) ℝ)ᵀ = 1) ∧
    ((∀ t : Fin 2, ((KalmanFilter 1 (XallOne 1) (1 : Matrix (Fin 1) (Fin 1) ℝ)
          1 1 1 0 1).Pp t)ᵀ
        = (KalmanFilter 1 (XallOne 1) (1 : Matrix (Fin 1) (Fin 1) ℝ)
          1 1 1 0 1).Pp t)
    ∧ (∀ t : Fin 1, ((KalmanFilter 1 (XallOne 1) (1 : Matrix (Fin 1) (Fin 1) ℝ)
          1 1 1 0 1).Pf t)ᵀ
        = (KalmanFilter 1 (XallOne 1) (1 : Matrix (Fin 1) (Fin 1) ℝ)
          1 1 1 0 1).Pf t)
    ∧ (∀ t : Fin 1, ((KalmanSmoother 1 (1 : Matrix (Fin 1) (Fin 1) ℝ)
          (1 : Matrix (Fin 1) (Fin 1) ℝ) 1
          (FThist (XallOne 1) (1 : Matrix (Fin 1) (Fin 1) ℝ) 1 1 1 0 1)
          (PThist 1 (XallOne 1) (1 : Matrix (Fin 1) (Fin 1) ℝ) 1 1 1 0 1)
          (PfThist (XallOne 1) (1 : Matrix (Fin 1) (Fin 1) ℝ) 1 1 1 0 1)
          (PpThist 1 (XallOne 1) (1 : Matrix (Fin 1) (Fin 1) ℝ) 1 1 1 0 1)).Ps t)ᵀ
        = (KalmanSmoother 1 (1 : Matrix (Fin 1) (Fin 1) ℝ)
          (1 : Matrix (Fin 1) (Fin 1) ℝ) 1
          (FThist (XallOne 1) (1 : Matrix (Fin 1) (Fin 1) ℝ) 1 1 1 0 1)
          (PThist 1 (XallOne 1) (1 : Matrix (Fin 1) (Fin 1) ℝ) 1 1 1 0 1)
          (PfThist (XallOne 1) (1 : Matrix (Fin 1) (Fin 1) ℝ) 1 1 1 0 1)
          (PpThist 1 (XallOne 1) (1 : Matrix (Fin 1) (Fin 1) ℝ) 1 1 1 0 1)).Ps t)) :=
  ⟨⟨Matrix.transpose_one, Matrix.transpose_one⟩,
    c3_covariance_symmetry_amended 1 (XallOne 1) (1 : Matrix (Fin 1) (Fin 1) ℝ)
      1 1 1 0 1 Matrix.transpose_one Matrix.transpose_one Matrix.transpose_one⟩

/-- C3 counterexample: the lag-one cross-covariance slice returned by
`KalmanSmoother` (run on the filter's histories, with symmetric positive
semi-definite `P0 = Q = I`, `R = I`) is not symmetric at a concrete input
with a non-symmetric transition matrix: the slice at `T-1` is
`[[1/7, 2/7], [-1/7, 5/7]]`. -/
theorem c3_covariance_symmetry_counterexample :
    ¬ (((KalmanSmoother 2 Amat2 Cmat12 1
        (FThist (XallOne 1) Cmat12 1 1 Amat2 0 1)
        (PThist 2 (XallOne 1) Cmat12 1 1 Amat2 0 1)
        (PfThist (XallOne 1) Cmat12 1 1 Amat2 0 1)
        (PpThist 2 (XallOne 1) Cmat12 1 1 Amat2 0 1)).PsTm ⟨1, one_lt_two⟩)ᵀ
      = (KalmanSmoother 2 Amat2 Cmat12 1
        (FThist (XallOne 1) Cmat12 1 1 Amat2 0 1)
        (PThist 2 (XallOne 1) Cmat12 1 1 Amat2 0 1)
        (PfThist (XallOne 1) Cmat12 1 1 Amat2 0 1)
        (PpThist 2 (XallOne 1) Cmat12 1 1 Amat2 0 1)).PsTm ⟨1, one_lt_two⟩) := by
  have hobs0 : ∀ i : Fin 1, ((XallOne 1 0) i).isSome = true := fun _ => rfl
  have hPfU : PfUpd Cmat12 1 (missIdx (XallOne 1 0)) 1
      = !![(1 : ℝ) / 2, 0; 0, 1] := by
    rw [PfUpd_obs hobs0]
    have hInn : Cmat12 * (1 : Matrix (Fin 2) (Fin 2) ℝ) * Cmat12ᵀ + 1
        = !![(2 : ℝ)] := by
      ext i j
      fin_cases i
      fin_cases j
      simp [Cmat12, Matrix.mul_apply, Fin.sum_univ_two, Fin.sum_univ_one,
        Matrix.add_apply, Matrix.one_apply, Matrix.transpose_apply,
        Matrix.vecHead, Matrix.vecTail]
      norm_num
    rw [hInn, inv_fin_one]
    ext i j
    fin_cases i <;> fin_cases j <;>
      · simp [Cmat12, Matrix.mul_apply, Fin.sum_univ_two, Fin.sum_univ_one,
          Matrix.sub_apply, Matrix.one_apply, Matrix.transpose_apply,
          Matrix.vecHead, Matrix.vecTail]
        try norm_num
  have hPp1 : PpThist 2 (XallOne 1) Cmat12 1 1 Amat2 0 1 1
      = !![(5 : ℝ) / 2, 1; 1, 2] := by
    rw [PpThist, if_pos one_lt_two]
    show Amat2 * PfUpd Cmat12 1 (missIdx (XallOne 1 0)) 1 * Amat2ᵀ + 1 = _
    rw [hPfU]
    ext i j
    fin_cases i <;> fin_cases j <;>
      · simp [Amat2, Matrix.mul_apply, Fin.sum_univ_two, Matrix.add_apply,
          Matrix.one_apply, Matrix.transpose_apply, Matrix.vecHead,
          Matrix.vecTail]
        try norm_num
  have hSeed : (KalmanSmoother 2 Amat2 Cmat12 1
      (FThist (XallOne 1) Cmat12 1 1 Amat2 0 1)
      (PThist 2 (XallOne 1) Cmat12 1 1 Amat2 0 1)
      (PfThist (XallOne 1) Cmat12 1 1 Amat2 0 1)
      (PpThist 2 (XallOne 1) Cmat12 1 1 Amat2 0 1)).PsTm ⟨1, one_lt_two⟩
      = !![(1 : ℝ) / 7, 2 / 7; -(1 / 7), 5 / 7] := by
    show PsTmSel 2 Amat2
        (PfThist (XallOne 1) Cmat12 1 1 Amat2 0 1)
        (PpThist 2 (XallOne 1) Cmat12 1 1 Amat2 0 1)
        (lagSeedFull 2 Amat2 Cmat12 1
          (PfThist (XallOne 1) Cmat12 1 1 Amat2 0 1)
          (PpThist 2 (XallOne 1) Cmat12 1 1 Amat2 0 1)) 1 = _
    rw [PsTmSel, if_pos (by norm_num)]
    show (1 - PpThist 2 (XallOne 1) Cmat12 1 1 Amat2 0 1 1 * Cmat12ᵀ *
          (Cmat12 * PpThist 2 (XallOne 1) Cmat12 1 1 Amat2 0 1 1 * Cmat12ᵀ
            + 1)⁻¹ * Cmat12) * Amat2 *
        PfUpd Cmat12 1 (missIdx (XallOne 1 0)) 1 = _
    rw [hPp1, hPfU]
    have hInn : Cmat12 * !![(5 : ℝ) / 2, 1; 1, 2] * Cmat12ᵀ + 1
        = !![(7 : ℝ) / 2] := by
      ext i j
      fin_cases i
      fin_cases j
      simp [Cmat12, Matrix.mul_apply, Fin.sum_univ_two, Fin.sum_univ_one,
        Matrix.add_apply, Matrix.one_apply, Matrix.transpose_apply,
        Matrix.vecHead, Matrix.vecTail]
      norm_num
    rw [hInn, inv_fin_one]
    ext i j
    fin_cases i <;> fin_cases j <;>
      · simp [Cmat12, Amat2, Matrix.mul_apply, Fin.sum_univ_two,
          Fin.sum_univ_one, Matrix.sub_apply, Matrix.one_apply,
          Matrix.transpose_apply, Matrix.vecHead, Matrix.vecTail,
          Matrix.smul_apply]
        try norm_num
  intro h
  rw [hSeed] at h
  have h01 := congrFun (congrFun h 0) 1
  simp [Matrix.transpose_apply] at h01
  norm_num at h01

/-!
Claim C9.
-/

/-- C9 amended: when the transition matrix's first row has at least one
non-finite entry, the column mask `nmiss = find_finite(A.row(0))` is applied
uniformly at every time step (it is computed once, before the loop), but the
per-step update is then NOT well-defined: the restricted `C` has
`|nmiss| < rp` columns while `Pp` is `rp × rp`, so the very first
multiplication `C * Pp` of `S = (C * Pp * C.t() + R).i()` fails Armadillo's
dimension conformance check at every step. -/
theorem c9_nmiss_dimension_amended (tC : AMat) (Arow0 : ℕ → Option ℝ)
    (rp : ℕ) (X : ℕ → ℕ → Option ℝ) (nchan : ℕ) (Pp : AMat)
    (hPp : Pp.rows = rp) (hA : ∃ j < rp, Arow0 j = none) :
    ∀ t : ℕ, kfFirstMul tC Arow0 rp (X t) nchan Pp = none := by
  intro t
  have hlt : (findFiniteIdx Arow0 rp).length < rp := by
    obtain ⟨j, hj, hnone⟩ := hA
    have h1 : (findFiniteIdx Arow0 rp).length < (List.range rp).length := by
      rw [findFiniteIdx]
      refine List.length_filter_lt_length_iff_exists.mpr ?_
      exact ⟨j, List.mem_range.mpr hj, by simp [hnone]⟩
    simpa using h1
  have hne : ¬ ((asubmat tC (findFiniteIdx (X t) nchan)
      (findFiniteIdx Arow0 rp)).cols = Pp.rows) := by
    show ¬ ((findFiniteIdx Arow0 rp).length = Pp.rows)
    rw [hPp]
    omega
  rw [kfFirstMul, amul, if_neg hne]

/-- C9 counterexample: with `rp = 2`, `A.row(0) = [1, NaN]` and a `2 × 2`
predicted covariance, the first multiplication `C * Pp` of the restricted
filter step fails the dimension check (the restricted `C` is `1 × 1`), so
the claim that no failing dimension check is reached is false. -/
theorem c9_nmiss_dimension_counterexample :
    kfFirstMul ⟨1, 2, fun _ _ => 1⟩
      (fun j => if j = 0 then some 1 else none) 2 (fun _ => some 1) 1
      ⟨2, 2, fun _ _ => 1⟩ = none := by
  have hne : ¬ ((asubmat (⟨1, 2, fun _ _ => 1⟩ : AMat)
      (findFiniteIdx (fun _ => some 1) 1)
      (findFiniteIdx (fun j => if j = 0 then some 1 else none) 2)).cols
        = (⟨2, 2, fun _ _ => 1⟩ : AMat).rows) := by
    show ¬ ((findFiniteIdx (fun j : ℕ => if j = 0 then some (1 : ℝ) else none)
        2).length = 2)
    have : findFiniteIdx (fun j : ℕ => if j = 0 then some (1 : ℝ) else none) 2
        = [0] := rfl
    rw [this]
    norm_num
  rw [kfFirstMul, amul, if_neg hne]

theorem c9_nmiss_dimension_witness :
    ((⟨2, 2, fun _ _ => 1⟩ : AMat).rows = 2
      ∧ ∃ j < 2, (fun j : ℕ => if j = 1 then none else some (1 : ℝ)) j = none) ∧
    kfFirstMul ⟨1, 2, fun _ _ => 1⟩
      (fun j : ℕ => if j = 1 then none else some (1 : ℝ)) 2
      ((fun _ _ => some 1) 0) 1 ⟨2, 2, fun _ _ => 1⟩ = none :=
  ⟨⟨rfl, ⟨1, one_lt_two, rfl⟩⟩,
    c9_nmiss_dimension_amended ⟨1, 2, fun _ _ => 1⟩
      (fun j : ℕ => if j = 1 then none else some (1 : ℝ)) 2
      (fun _ _ => some 1) 1 ⟨2, 2, fun _ _ => 1⟩ rfl
      ⟨1, one_lt_two, rfl⟩ 0⟩

end DFM
